import Mathlib

/-!
Verification of the Riposte batch-annotation orchestrator.

This file gives a shallow embedding of the rate-limiting, concurrency,
retry, deduplication and response-parsing logic of the repository
(`tools/riposte-cli` and `tools/meme-my-mood-cli`), and proves or refutes
the frozen behavioural claims about it.

Conventions:
* Python floats are modelled as real numbers (`ℝ`), integers as `ℕ`/`ℤ`.
* Python dicts are modelled as insertion-ordered association lists whose
  update-in-place semantics is `ainsert` below.
* `random.uniform (-1, 1)` is modelled by an explicit jitter parameter `j`
  ranging over `[-1, 1]`.
* File-system facts (which files exist in a folder) are passed in as data.
-/

namespace Riposte

/-! ## Association lists: Python `dict` semantics

`alookup` is `d.get(k)`; `ainsert` is `d[k] = v` (overwrite in place if the
key is present, append otherwise, preserving insertion order). -/

def alookup {α : Type} (l : List (String × α)) (k : String) : Option α :=
  (l.find? (fun p => p.1 = k)).map (·.2)

def ainsert {α : Type} (l : List (String × α)) (k : String) (v : α) :
    List (String × α) :=
  if (l.find? (fun p => p.1 = k)).isSome then
    l.map (fun p => if p.1 = k then (k, v) else p)
  else
    l ++ [(k, v)]

def akeys {α : Type} (l : List (String × α)) : List String := l.map (·.1)

/-! ## Concurrency limiter

Modelled from the spec: the class `ConcurrencyLimiter` of
`riposte_cli/copilot.py` is not part of the published sources (only its
tests in `tests/test_concurrency.py` and its caller
`commands/annotate.py` are), so its state and transitions are modelled
from §4.3 of the specification and the behaviour pinned down by the tests:
* `record_rate_limit` reduces `current_concurrency` by 1, floored at
  `min_concurrency`, and (being a failure) breaks any success run;
* `record_server_error` reduces concurrency only on the third consecutive
  server error;
* a run of `restore_threshold` consecutive `record_success` calls restores
  `current_concurrency` by 1, capped at `max_concurrency`; the success
  counter resets whenever concurrency changes;
* `should_give_up` reflects the wrapped rate limiter's consecutive-failure
  counter against its ceiling, reset to zero by any success.
Pause timing (`is_paused`) is real-time behaviour and is not modelled. -/

structure ConcurrencyLimiter where
  min_concurrency : ℕ
  max_concurrency : ℕ
  current_concurrency : ℕ
  successes_since_reduction : ℕ
  restore_threshold : ℕ
  consecutive_failures : ℕ
  max_backoff_attempts : ℕ
  consecutive_server_errors : ℕ
deriving DecidableEq, Repr

def ConcurrencyLimiter.record_rate_limit (s : ConcurrencyLimiter) :
    ConcurrencyLimiter :=
  { s with
    current_concurrency := max (s.current_concurrency - 1) s.min_concurrency
    successes_since_reduction := 0
    consecutive_failures := s.consecutive_failures + 1
    consecutive_server_errors := 0 }

def ConcurrencyLimiter.record_server_error (s : ConcurrencyLimiter) :
    ConcurrencyLimiter :=
  let k := s.consecutive_server_errors + 1
  if 3 ≤ k then
    { s with
      current_concurrency := max (s.current_concurrency - 1) s.min_concurrency
      successes_since_reduction := 0
      consecutive_failures := s.consecutive_failures + 1
      consecutive_server_errors := 0 }
  else
    { s with
      consecutive_failures := s.consecutive_failures + 1
      consecutive_server_errors := k }

def ConcurrencyLimiter.record_success (s : ConcurrencyLimiter) :
    ConcurrencyLimiter :=
  let k := s.successes_since_reduction + 1
  if s.restore_threshold ≤ k ∧ s.current_concurrency < s.max_concurrency then
    { s with
      current_concurrency := s.current_concurrency + 1
      successes_since_reduction := 0
      consecutive_failures := 0
      consecutive_server_errors := 0 }
  else
    { s with
      successes_since_reduction := k
      consecutive_failures := 0
      consecutive_server_errors := 0 }

def ConcurrencyLimiter.should_give_up (s : ConcurrencyLimiter) : Bool :=
  s.max_backoff_attempts ≤ s.consecutive_failures

/-- Events of claim C1: interleavings of `record_rate_limit` and
`record_success` calls. -/
inductive CLEvent : Type
  | rateLimit : CLEvent
  | success : CLEvent
deriving DecidableEq, Repr

def ConcurrencyLimiter.step (s : ConcurrencyLimiter) : CLEvent → ConcurrencyLimiter
  | .rateLimit => s.record_rate_limit
  | .success => s.record_success

def ConcurrencyLimiter.run (s : ConcurrencyLimiter) (evs : List CLEvent) :
    ConcurrencyLimiter :=
  evs.foldl ConcurrencyLimiter.step s

/-! ## Per-item retry loop (claim C4)

Shallow embedding of `process_single_image` from
`riposte_cli/commands/annotate.py` (lines 468-582): a bounded loop of at
most `max_retries = 5` attempts.  Each attempt's interaction with the
remote call is summarised by an `AttemptOutcome`; the shared
`ConcurrencyLimiter` state is threaded through exactly where the source
calls `record_success` / `record_rate_limit` / `record_server_error`.
Authentication failure aborts the process (`sys.exit`) and cancellation is
treated in the slot-accounting model below, so neither appears here. -/

inductive AttemptOutcome : Type
  | success : AttemptOutcome
  | rateLimited : AttemptOutcome
  | serverError : AttemptOutcome
  | copilotError : AttemptOutcome
  | otherError : AttemptOutcome
deriving DecidableEq, Repr

inductive ItemVerdict : Type
  | succeeded : ItemVerdict
  | failedRateLimit : ItemVerdict
  | failedServer : ItemVerdict
  | failedError : ItemVerdict
  | incomplete : ItemVerdict
deriving DecidableEq, Repr

/-- `max_retries = 5` in `process_single_image`. -/
def maxRetries : ℕ := 5

/-- One run of the `for attempt in range(max_retries)` loop of
`process_single_image`.  `attempt` is the loop index; the outcome list
holds the result of each attempt actually performed.  `.incomplete` marks
runs whose outcome trace is shorter than the number of attempts the loop
would make (it never arises for real traces). -/
def runAttempts : ℕ → List AttemptOutcome → ConcurrencyLimiter →
    ItemVerdict × ConcurrencyLimiter
  | _, [], st => (.incomplete, st)
  | attempt, o :: rest, st =>
    match o with
    | .success => (.succeeded, st.record_success)
    | .rateLimited =>
      let st' := st.record_rate_limit
      if maxRetries ≤ attempt + 1 then (.failedRateLimit, st')
      else runAttempts (attempt + 1) rest st'
    | .serverError =>
      let st' := st.record_server_error
      if maxRetries ≤ attempt + 1 then (.failedServer, st')
      else runAttempts (attempt + 1) rest st'
    | .copilotError => (.failedError, st)
    | .otherError => (.failedError, st)

/-! ## Sidecar-based filtering (claim C9)

Shallow embedding of `filter_images_by_mode` from
`riposte_cli/commands/annotate.py` (lines 112-154).  Images are
identified by their path; `hasSidecar` stands for the file-system check
`has_sidecar(img, output_dir)`. -/

def filterLoop (images : List String) (hasSidecar : String → Bool) :
    List String × ℕ :=
  images.foldl
    (fun acc img =>
      if hasSidecar img then (acc.1, acc.2 + 1) else (acc.1 ++ [img], acc.2))
    ([], 0)

def filter_images_by_mode (images : List String) (hasSidecar : String → Bool)
    (force : Bool) (only_missing : Bool) : List String × ℕ :=
  if force then
    (images, 0)
  else if only_missing then
    filterLoop images hasSidecar
  else
    -- source comment: "Default behavior: same as only_missing for safety"
    filterLoop images hasSidecar

/-! ## Rate limiter (claims C2, C3)

Shallow embedding of the `RateLimiter` dataclass of
`riposte_cli/copilot.py` (lines 144-257).  Python floats are modelled as
real numbers; `random.uniform(-1, 1)` is an explicit parameter `j` with
`|j| ≤ 1`; `time.monotonic()` values are explicit parameters of
`wait_if_needed`. -/

noncomputable section RateLimiterModel

structure RateLimiter where
  min_delay : ℝ
  max_delay : ℝ
  base_backoff : ℝ
  max_backoff_attempts : ℕ
  jitter_factor : ℝ
  error_window : ℕ
  error_threshold : ℝ
  consecutive_failures : ℕ
  last_request_time : ℝ
  current_delay : ℝ
  recent_results : List Bool

/-- `RateLimiter()` with the field defaults of the dataclass. -/
def RateLimiter.default : RateLimiter :=
  { min_delay := 1
    max_delay := 300
    base_backoff := 2
    max_backoff_attempts := 8
    jitter_factor := 0.25
    error_window := 10
    error_threshold := 0.3
    consecutive_failures := 0
    last_request_time := 0
    current_delay := 1
    recent_results := [] }

/-- `RateLimiter._add_result`. -/
def RateLimiter.add_result (s : RateLimiter) (success : Bool) : RateLimiter :=
  let rs := s.recent_results ++ [success]
  { s with recent_results := if s.error_window < rs.length then rs.drop 1 else rs }

/-- `RateLimiter._get_error_rate`. -/
def RateLimiter.get_error_rate (s : RateLimiter) : ℝ :=
  if s.recent_results = [] then 0
  else ((s.recent_results.filter (fun r => !r)).length : ℝ) / s.recent_results.length

/-- `RateLimiter.record_success`. -/
def RateLimiter.record_success (s : RateLimiter) : RateLimiter :=
  RateLimiter.add_result
    { s with
      consecutive_failures := 0
      current_delay := max s.min_delay (s.current_delay * 0.9) }
    true

/-- The jitter-free exponential backoff `base_backoff ** exponent`
(respectively `base_backoff ** (exponent * 0.5)` for server errors)
computed by `record_failure` once `consecutive_failures` has been
incremented to `cf`. -/
def RateLimiter.base_wait (s : RateLimiter) (cf : ℕ) (is_server_error : Bool) : ℝ :=
  let exponent : ℕ := min cf s.max_backoff_attempts
  if is_server_error then
    s.base_backoff ^ ((exponent : ℝ) * 0.5)
  else
    s.base_backoff ^ ((exponent : ℝ))

/-- `RateLimiter.record_failure`: returns the recommended wait time and the
updated state.  `j ∈ [-1, 1]` stands for `random.uniform(-1, 1)`. -/
def RateLimiter.record_failure (s : RateLimiter) (retry_after : Option ℝ)
    (is_server_error : Bool) (j : ℝ) : ℝ × RateLimiter :=
  let s₁ := RateLimiter.add_result
    { s with consecutive_failures := s.consecutive_failures + 1 } false
  match retry_after with
  | some ra =>
    let wait_time := ra * 1.1
    (wait_time, { s₁ with current_delay := max s₁.current_delay wait_time })
  | none =>
    let base := s₁.base_wait s₁.consecutive_failures is_server_error
    let jitter := base * s₁.jitter_factor * j
    let wait_time := max (min (base + jitter) s₁.max_delay) s₁.min_delay
    (wait_time, { s₁ with current_delay := max s₁.current_delay wait_time })

/-- `RateLimiter.should_give_up`. -/
def RateLimiter.should_give_up (s : RateLimiter) : Bool :=
  s.max_backoff_attempts ≤ s.consecutive_failures

/-- `RateLimiter.wait_if_needed`: returns the seconds slept and the updated
state; `now` is the first `time.monotonic()` reading, `now'` the second. -/
def RateLimiter.wait_if_needed (s : RateLimiter) (now now' : ℝ) : ℝ × RateLimiter :=
  let elapsed := now - s.last_request_time
  let er := s.get_error_rate
  let delay := if s.error_threshold < er then s.current_delay * (1 + er) else s.current_delay
  let slept := if elapsed < delay then delay - elapsed else 0
  (slept, { s with last_request_time := now' })

/-- Invariant of claim C3: `minDelay ≤ currentDelay ≤ maxDelay`. -/
def RateLimiter.delayInv (s : RateLimiter) : Prop :=
  s.min_delay ≤ s.current_delay ∧ s.current_delay ≤ s.max_delay

end RateLimiterModel

/-! ## Concurrency-slot accounting (claim C5)

Modelled from the spec: `ConcurrencyLimiter.acquire` / `release` are not in
the published sources (§4.3: "if a caller is cancelled while waiting to
acquire, no slot is consumed; if cancelled after acquiring, the slot must
still be released").  `acquire` increments `active_tasks`, `release`
decrements it.  The exit paths of one loop iteration of
`process_single_image` (`commands/annotate.py` lines 478-582) are
enumerated below with the limiter calls each path performs, read off the
`try`/`finally`/`except` structure of the source:
* cancellation while suspended in `limiter.acquire()` leaves
  `acquired = False`, so the `except asyncio.CancelledError` handler
  re-raises without touching the limiter;
* the inner `try`/`finally` around `analyze_image_async` releases the slot
  on normal return, on every exception, and on cancellation, before any
  handler runs (and sets `acquired = False`);
* cancellation after that release point finds `acquired = False` and
  performs no further limiter call. -/

inductive SlotOp : Type
  | acquire : SlotOp
  | release : SlotOp
deriving DecidableEq, Repr

/-- Effect of the spec-modelled `acquire`/`release` on `active_tasks`. -/
def applySlotOps (active : ℕ) (ops : List SlotOp) : ℕ :=
  ops.foldl (fun a op => match op with | .acquire => a + 1 | .release => a - 1) active

/-- The ways one iteration of the retry loop of `process_single_image` can
exit, as far as the concurrency limiter is concerned. -/
inductive AttemptExit : Type
  /-- `asyncio.CancelledError` raised inside `limiter.acquire()`:
  `acquired` is still `False`, the handler just re-raises. -/
  | cancelledWhileWaiting : AttemptExit
  /-- `analyze_image_async` returns normally; the inner `finally` releases
  the slot before the sidecar is written. -/
  | completed : AttemptExit
  /-- `analyze_image_async` raises (`RateLimitError`, `ServerError`,
  `CopilotError`, anything else); the inner `finally` releases the slot
  before the matching `except` clause runs. -/
  | bodyRaised : AttemptExit
  /-- cancellation inside `analyze_image_async`: the inner `finally`
  releases the slot and clears `acquired` before the
  `except asyncio.CancelledError` handler re-raises. -/
  | cancelledInBody : AttemptExit
  /-- cancellation after the inner `finally` (e.g. during
  `record_success`, `record_rate_limit` or the backoff sleep): the handler
  sees `acquired = False` and re-raises without releasing again. -/
  | cancelledAfterRelease : AttemptExit
deriving DecidableEq, Repr

/-- The `acquire`/`release` calls actually performed on each exit path. -/
def attemptOps : AttemptExit → List SlotOp
  | .cancelledWhileWaiting => []
  | .completed => [.acquire, .release]
  | .bodyRaised => [.acquire, .release]
  | .cancelledInBody => [.acquire, .release]
  | .cancelledAfterRelease => [.acquire, .release]

/-! ## Hashing and deduplication (claims C6, C7, C8)

Shallow embedding of `meme_my_mood_cli/hashing.py`.  An image is
represented by its path, its SHA-256 content hash, its perceptual hash
(the empty string when the image could not be decoded) and its size;
`compute_hashes` itself is file I/O plus PIL and stays external, so these
values are carried by the `Img` record.  Hex hash strings are decoded
digit by digit exactly as `bytes.fromhex` does on valid even-length hex
input (the only input the hash functions produce). -/

/-- Value of one hex digit.  On the hex strings produced by
`compute_phash`/`compute_sha256` every character is a valid digit;
`bytes.fromhex` raises on anything else, so theorems restrict attention to
valid hex via `isHexString`. -/
def hexVal (c : Char) : ℕ :=
  if '0' ≤ c ∧ c ≤ '9' then c.toNat - 48
  else if 'a' ≤ c ∧ c ≤ 'f' then c.toNat - 87
  else if 'A' ≤ c ∧ c ≤ 'F' then c.toNat - 55
  else 0

def isHexDigit (c : Char) : Bool :=
  ('0' ≤ c ∧ c ≤ '9') ∨ ('a' ≤ c ∧ c ≤ 'f') ∨ ('A' ≤ c ∧ c ≤ 'F')

def isHexString (s : String) : Prop :=
  s.toList.all isHexDigit = true ∧ s.length % 2 = 0

/-- `bytes.fromhex`: consecutive pairs of hex digits become bytes. -/
def bytesFromHex : List Char → List ℕ
  | [] => []
  | [c] => [hexVal c]
  | c₁ :: c₂ :: rest => (16 * hexVal c₁ + hexVal c₂) :: bytesFromHex rest

/-- `bin(x).count("1")` for a byte value (all bytes are `< 256`, so eight
bit positions suffice). -/
def popcount (n : ℕ) : ℕ :=
  n % 2 + n / 2 % 2 + n / 4 % 2 + n / 8 % 2 +
    n / 16 % 2 + n / 32 % 2 + n / 64 % 2 + n / 128 % 2

/-- `hamming_distance` from `hashing.py` (lines 126-151): `-1` for an
empty operand or a length mismatch, otherwise the number of differing
bits. -/
def hamming_distance (hash1 hash2 : String) : ℤ :=
  if hash1 = "" ∨ hash2 = "" then -1
  else if hash1.length ≠ hash2.length then -1
  else
    ((List.zip (bytesFromHex hash1.toList) (bytesFromHex hash2.toList)).foldl
      (fun d p => d + popcount (p.1 ^^^ p.2)) 0 : ℕ)

/-- `are_similar_images` from `hashing.py` (lines 154-173). -/
def are_similar_images (phash1 phash2 : String) (threshold : ℤ) : Bool :=
  let distance := hamming_distance phash1 phash2
  if distance < 0 then false else distance ≤ threshold

/-- One candidate image together with the hashes `compute_hashes` returns
for it.  `phash = ""` models a file PIL could not decode. -/
structure Img where
  path : String
  sha256 : String
  phash : String
  size : ℕ
deriving DecidableEq, Repr

/-- One value of the `hashes` dict of the manifest
(`{sha256, phash, filename, size, created_at}`). -/
structure MEntry where
  sha256 : String
  phash : String
  filename : String
  size : ℕ
  created_at : String
deriving DecidableEq, Repr

/-- `manifest["hashes"]`: a dict keyed by content hash. -/
abbrev Manifest : Type := List (String × MEntry)

/-- `HashIndex` from `hashing.py` (lines 176-237). -/
structure HashIndex where
  sha256_to_path : List (String × String)
  phash_to_paths : List (String × List String)
  path_to_hashes : List (String × (String × String))
deriving DecidableEq, Repr

def HashIndex.empty : HashIndex := ⟨[], [], []⟩

/-- `HashIndex.add`. -/
def HashIndex.add (idx : HashIndex) (path sha256 phash : String) : HashIndex :=
  { sha256_to_path := ainsert idx.sha256_to_path sha256 path
    path_to_hashes := ainsert idx.path_to_hashes path (sha256, phash)
    phash_to_paths :=
      if phash ≠ "" then
        match alookup idx.phash_to_paths phash with
        | some ps => ainsert idx.phash_to_paths phash (ps ++ [path])
        | none => idx.phash_to_paths ++ [(phash, [path])]
      else idx.phash_to_paths }

/-- `HashIndex.has_exact_duplicate`. -/
def HashIndex.has_exact_duplicate (idx : HashIndex) (sha256 : String) :
    Option String :=
  alookup idx.sha256_to_path sha256

/-- `HashIndex.find_similar`: walk every perceptual-hash bucket and collect
the paths of buckets within the threshold. -/
def HashIndex.find_similar (idx : HashIndex) (phash : String) (threshold : ℤ) :
    List String :=
  if phash = "" then []
  else
    idx.phash_to_paths.foldl
      (fun acc e => if are_similar_images phash e.1 threshold then acc ++ e.2 else acc)
      []

/-- `build_index_from_manifest` (lines 314-331): index every manifest entry
whose file still exists; `files` is the set of filenames present in the
folder, paths are identified with filenames. -/
def build_index_from_manifest (manifest : Manifest) (files : List String) :
    HashIndex :=
  manifest.foldl
    (fun idx p =>
      if p.2.filename ∈ files then idx.add p.2.filename p.1 p.2.phash else idx)
    HashIndex.empty

/-- `add_to_manifest` (lines 291-311); `now` models `datetime.now()`. -/
def add_to_manifest (manifest : Manifest) (img : Img) (now : String) : Manifest :=
  ainsert manifest img.sha256
    ⟨img.sha256, img.phash, img.path, img.size, now⟩

/-- One candidate inspection of the `best_match` scan of
`deduplicate_images` (lines 397-403). -/
def findBestStep (idx : HashIndex) (phash : String)
    (acc : Option String × ℤ) (p : String) : Option String × ℤ :=
  match alookup idx.path_to_hashes p with
  | some hs =>
    let dist := hamming_distance phash hs.2
    if 0 ≤ dist ∧ dist < acc.2 then (some p, dist) else acc
  | none => acc

/-- The `best_match` scan of `deduplicate_images` (lines 394-403): the
most similar indexed path, starting from `best_distance = threshold + 1`. -/
def findBest (idx : HashIndex) (phash : String) (similar : List String)
    (threshold : ℤ) : Option String × ℤ :=
  similar.foldl (findBestStep idx phash) (none, threshold + 1)

/-- A candidate of the `best_match` scan that will certainly be accepted:
its recorded perceptual hash is within the threshold of the query. -/
def goodCand (idx : HashIndex) (q : String) (t : ℤ) (p : String) : Prop :=
  ∃ hs, alookup idx.path_to_hashes p = some hs
    ∧ 0 ≤ hamming_distance q hs.2 ∧ hamming_distance q hs.2 ≤ t

/-- Accumulator of the loop of `deduplicate_images`. -/
structure DedupAcc where
  index : HashIndex
  manifest : Manifest
  unique_images : List Img
  exact_duplicates : List (Img × String)
  near_duplicates : List (Img × String × ℤ)

/-- One iteration of the loop of `deduplicate_images` (lines 381-412). -/
def dedupStep (detect_near_duplicates : Bool) (threshold : ℤ) (now : String)
    (acc : DedupAcc) (img : Img) : DedupAcc :=
  match acc.index.has_exact_duplicate img.sha256 with
  | some original =>
    { acc with exact_duplicates := acc.exact_duplicates ++ [(img, original)] }
  | none =>
    let near : Option (String × ℤ) :=
      if detect_near_duplicates ∧ img.phash ≠ "" then
        let similar := acc.index.find_similar img.phash threshold
        if similar = [] then none
        else
          match findBest acc.index img.phash similar threshold with
          | (some best, dist) => some (best, dist)
          | (none, _) => none
      else none
    match near with
    | some (best, dist) =>
      { acc with near_duplicates := acc.near_duplicates ++ [(img, best, dist)] }
    | none =>
      { index := acc.index.add img.path img.sha256 img.phash
        manifest := add_to_manifest acc.manifest img now
        unique_images := acc.unique_images ++ [img]
        exact_duplicates := acc.exact_duplicates
        near_duplicates := acc.near_duplicates }

/-- `DeduplicationResult` (lines 334-348) together with the updated
manifest (the source mutates it in place). -/
structure DeduplicationResult where
  unique_images : List Img
  exact_duplicates : List (Img × String)
  near_duplicates : List (Img × String × ℤ)
  total_analyzed : ℕ
  manifest : Manifest

/-- `deduplicate_images` (lines 351-419). -/
def deduplicate_images (images : List Img) (manifest : Manifest)
    (files : List String) (detect_near_duplicates : Bool) (threshold : ℤ)
    (now : String) : DeduplicationResult :=
  let idx := build_index_from_manifest manifest files
  let acc := images.foldl (dedupStep detect_near_duplicates threshold now)
    ⟨idx, manifest, [], [], []⟩
  ⟨acc.unique_images, acc.exact_duplicates, acc.near_duplicates,
    images.length, acc.manifest⟩

/-- Exclusion policy in the words of the spec (§4.1): an image is excluded
iff its content hash exactly matches an indexed entry, or near-duplicate
detection is on, it has a perceptual hash and some indexed entry is within
the similarity threshold. -/
def specExcluded (idx : HashIndex) (img : Img) (detect_near_duplicates : Bool)
    (threshold : ℤ) : Bool :=
  (idx.has_exact_duplicate img.sha256).isSome ||
    (detect_near_duplicates && (img.phash ≠ "" : Bool) &&
      !(idx.find_similar img.phash threshold).isEmpty)

/-- The filtering pass described by the spec: drop excluded images, index
the rest and give each kept image one manifest entry. -/
def specStep (detect_near_duplicates : Bool) (threshold : ℤ) (now : String)
    (acc : List Img × HashIndex × Manifest) (img : Img) :
    List Img × HashIndex × Manifest :=
  if specExcluded acc.2.1 img detect_near_duplicates threshold then acc
  else
    (acc.1 ++ [img], acc.2.1.add img.path img.sha256 img.phash,
      add_to_manifest acc.2.2 img now)

/-- Well-formedness of a `HashIndex`: every path in a perceptual-hash
bucket is recorded in `path_to_hashes` with exactly that perceptual hash.
Every index built by `HashIndex.add` from fresh paths satisfies this. -/
def HashIndex.WF (idx : HashIndex) : Prop :=
  ∀ e ∈ idx.phash_to_paths, ∀ p ∈ e.2,
    ∃ sha, alookup idx.path_to_hashes p = some (sha, e.1)

/-! ## JSON values

Python objects produced by `json.load`/`json.loads`.  The parser itself is
the standard library (external); models below take the parse outcome (or a
parse oracle) as input.  Numbers are modelled as integers — no claim
depends on float payloads. -/

inductive JVal : Type
  | null : JVal
  | bool : Bool → JVal
  | num : ℤ → JVal
  | str : String → JVal
  | arr : List JVal → JVal
  | obj : List (String × JVal) → JVal

/-- Python truthiness test `not x` (negated): `None`, `False`, `0`, `""`,
`[]`, `{}` are falsy. -/
def JVal.isFalsy : JVal → Bool
  | .null => true
  | .bool b => !b
  | .num n => n = 0
  | .str s => s = ""
  | .arr xs => xs.isEmpty
  | .obj kvs => kvs.isEmpty

/-! ## Manifest loading (claim C8)

Shallow embedding of `load_hash_manifest` (`hashing.py` lines 240-269).
The file system and `json.load` are external: a load attempt is summarised
by a `FileReadOutcome`.  The file is opened in text mode with
`encoding="utf-8"`, so `json.load`'s internal `f.read()` can raise three
kinds of exception: `OSError` while reading, `UnicodeDecodeError` (a
`ValueError` that is *not* a `json.JSONDecodeError`) when the bytes are
not valid UTF-8, and `json.JSONDecodeError` when the decoded text is not
JSON.  The `except (json.JSONDecodeError, OSError)` clause at line 262
catches the first and third but not `UnicodeDecodeError`, which therefore
propagates out of `load_hash_manifest`; `notUtf8` represents that input.
`parsed j` is a readable file whose contents `json.load` decodes to `j` —
the source returns such a value unchanged, whatever its shape.  `now`
models `datetime.now()`. -/

inductive FileReadOutcome : Type
  /-- the manifest file does not exist -/
  | absent : FileReadOutcome
  /-- the file exists but reading it fails with `OSError`, or its text
  fails JSON-decoding (`json.JSONDecodeError`) — the two exception types
  the source catches -/
  | notJson : FileReadOutcome
  /-- the file exists and is readable but its bytes are not valid UTF-8:
  `f.read()` inside `json.load` raises `UnicodeDecodeError` -/
  | notUtf8 : FileReadOutcome
  /-- the file exists and `json.load` returns `j` -/
  | parsed : JVal → FileReadOutcome

/-- What a call to `load_hash_manifest` does: return a value, or let an
uncaught exception escape. -/
inductive LoadOutcome : Type
  /-- the function returns `j` -/
  | returns : JVal → LoadOutcome
  /-- an uncaught `UnicodeDecodeError` propagates to the caller -/
  | unicodeDecodeError : LoadOutcome

/-- The fresh empty manifest the source builds (version, timestamps, and
an empty `hashes` dict). -/
def emptyManifestJ (now : String) : JVal :=
  .obj [("version", .str "1.0"), ("created_at", .str now),
        ("updated_at", .str now), ("hashes", .obj [])]

/-- `load_hash_manifest`. -/
def load_hash_manifest (now : String) : FileReadOutcome → LoadOutcome
  | .absent => .returns (emptyManifestJ now)
  | .notJson => .returns (emptyManifestJ now)
  | .notUtf8 => .unicodeDecodeError
  | .parsed j => .returns j

/-- Whether a JSON value has the `HashManifest` shape the rest of the code
relies on (an object whose `hashes` key holds an object). -/
def isManifestShaped (j : JVal) : Bool :=
  match j with
  | .obj kvs =>
    match alookup kvs "hashes" with
    | some (.obj _) => true
    | _ => false
  | _ => false

/-! ## Response parsing (claim C10)

Shallow embedding of `_parse_response_content` (`riposte_cli/copilot.py`
lines 264-298).  Content strings are modelled as `List Char` so that the
stripping of markdown fences can be reasoned about; `json.loads` is a
parse oracle `loads`.  Python's dynamic `in`/`[]` operators are modelled
with an explicit `TypeError` outcome: `"emojis" in parsed` raises
`TypeError` when `parsed` is a number, boolean or `None`, and
`parsed["emojis"]` raises `TypeError` when `parsed` is a list or a
string. -/

def pyWhitespace (c : Char) : Bool :=
  c = ' ' ∨ c = '\t' ∨ c = '\n' ∨ c = '\r' ∨ c = '\x0b' ∨ c = '\x0c'

/-- Python `str.strip()`. -/
def pyStrip (l : List Char) : List Char :=
  ((l.dropWhile pyWhitespace).reverse.dropWhile pyWhitespace).reverse

def fenceJson : List Char := ['`', '`', '`', 'j', 's', 'o', 'n']

def fence3 : List Char := ['`', '`', '`']

/-- The fence-stripping prologue of `_parse_response_content`
(lines 276-285). -/
def stripFences (content : List Char) : List Char :=
  let c := pyStrip content
  let c := if fenceJson.isPrefixOf c then c.drop 7 else c
  let c := if fence3.isPrefixOf c then c.drop 3 else c
  let c := if fence3.reverse.isPrefixOf c.reverse then c.take (c.length - 3) else c
  pyStrip c

/-- Python `key in v` for a JSON value: `none` models `TypeError`
("argument of type ... is not iterable"). -/
def pyContains (v : JVal) (key : String) : Option Bool :=
  match v with
  | .obj kvs => some (kvs.find? (fun p => p.1 = key)).isSome
  | .arr xs => some (xs.any (fun x => match x with | .str s => s = key | _ => false))
  | .str s => some ((List.range (s.length + 1)).any
      (fun i => key.toList.isPrefixOf (s.toList.drop i)))
  | _ => none

/-- Python `v[key]` for a JSON value: `none` models `TypeError`
(list/string indices must be integers; `None`/numbers/booleans are not
subscriptable). -/
def pySubscript (v : JVal) (key : String) : Option JVal :=
  match v with
  | .obj kvs => (kvs.find? (fun p => p.1 = key)).map (·.2)
  | _ => none

/-- Outcome of `_parse_response_content`: the returned value, a raised
`CopilotError`, or an uncaught `TypeError` from the dynamic operators. -/
inductive ParseOutcome : Type
  | ok : JVal → ParseOutcome
  | copilotError : ParseOutcome
  | typeError : ParseOutcome

/-- The validation epilogue of `_parse_response_content` (lines 287-298):
`if "emojis" not in parsed or not parsed["emojis"]: raise CopilotError`. -/
def validateParsed (parsed : JVal) : ParseOutcome :=
  match pyContains parsed "emojis" with
  | none => .typeError
  | some contains =>
    if !contains then .copilotError
    else
      match pySubscript parsed "emojis" with
      | none => .typeError
      | some e => if e.isFalsy then .copilotError else .ok parsed

/-- `_parse_response_content`, with `loads` the `json.loads` oracle applied
to the fence-stripped content (`json.JSONDecodeError` is caught and
re-raised as `CopilotError`). -/
def parse_response_content (loads : List Char → Except String JVal)
    (content : List Char) : ParseOutcome :=
  match loads (stripFences content) with
  | .error _ => .copilotError
  | .ok parsed => validateParsed parsed

/-! ## Concrete instances used by counterexamples and witnesses -/

/-- A parse oracle behaving like `json.loads` on the single content
`"42"` (a valid JSON number). -/
def loadsNum : List Char → Except String JVal :=
  fun c => if c = ['4', '2'] then .ok (.num 42) else .error "unparseable"

/-- The JSON value of a readable manifest file containing `[1, 2]`:
valid JSON, but not a manifest. -/
def corruptManifestJ : JVal := .arr [.num 1, .num 2]

/-- Candidate image for the duplicate-filename counterexample of C6. -/
def imgDupName : Img := ⟨"img", "s3", "00", 1⟩

/-- A manifest whose two entries share the filename `"a"`: the second
`HashIndex.add` overwrites `path_to_hashes["a"]` while the perceptual-hash
bucket of the first entry still lists `"a"`. -/
def manifestDupName : Manifest :=
  [("s1", ⟨"s1", "00", "a", 1, "t0"⟩), ("s2", ⟨"s2", "ff", "a", 1, "t0"⟩)]

/-- A stale manifest: its single entry describes a file that no longer
exists in the folder. -/
def manifestStale : Manifest := [("s9", ⟨"s9", "", "gone", 1, "t0"⟩)]

/-- An image whose content hash coincides with the stale manifest entry's
key. -/
def imgStale : Img := ⟨"b", "s9", "", 1⟩

/-- Scenario batch of claim C6: five images of which two (`i1`, `i3`) are
byte-identical (same content hash, same perceptual hash); the remaining
perceptual hashes are pairwise more than 10 bits apart. -/
def imgsScenario : List Img :=
  [⟨"i1", "h1", "0000000000000000", 1⟩,
   ⟨"i2", "h2", "ffffffffffffffff", 1⟩,
   ⟨"i3", "h1", "0000000000000000", 1⟩,
   ⟨"i4", "h4", "00000000ffffffff", 1⟩,
   ⟨"i5", "h5", "ffffffff00000000", 1⟩]

/-- Concurrency limiter at its initial state for the defaults of the
tests: `max_concurrency = 4`, `min_concurrency = 1`,
`restore_threshold = 3`, `max_backoff_attempts = 8`. -/
def limiterInit : ConcurrencyLimiter :=
  { min_concurrency := 1
    max_concurrency := 4
    current_concurrency := 4
    successes_since_reduction := 0
    restore_threshold := 3
    consecutive_failures := 0
    max_backoff_attempts := 8
    consecutive_server_errors := 0 }

/-! ## Association-list lemmas -/

theorem alookup_nil {α : Type} (q : String) : alookup ([] : List (String × α)) q = none := rfl

theorem alookup_cons {α : Type} (p : String × α) (l : List (String × α)) (q : String) :
    alookup (p :: l) q = if p.1 = q then some p.2 else alookup l q := by
  by_cases h : p.1 = q
  · unfold alookup
    rw [List.find?_cons_of_pos _ (by simpa using h)]
    simp [h]
  · unfold alookup
    rw [List.find?_cons_of_neg _ (by simpa using h)]
    simp [h]

theorem alookup_append {α : Type} (l₁ l₂ : List (String × α)) (q : String) :
    alookup (l₁ ++ l₂) q = (alookup l₁ q).or (alookup l₂ q) := by
  simp [alookup, List.find?_append]
  cases List.find? (fun p => p.1 = q) l₁ <;> simp

theorem alookup_map_update {α : Type} (l : List (String × α)) (k q : String) (v : α) :
    alookup (l.map (fun p => if p.1 = k then (k, v) else p)) q =
      if q = k then (l.find? (fun p => p.1 = k)).map (fun _ => v) else alookup l q := by
  induction l with
  | nil => simp [alookup]
  | cons p t ih =>
    by_cases hp : p.1 = k
    · simp only [List.map_cons, if_pos hp]
      rw [alookup_cons, List.find?_cons_of_pos _ (by simp [hp])]
      by_cases hq : q = k
      · subst hq; simp
      · simp only [if_neg hq]
        have : ¬((k, v).1 = q) := by simpa using fun h => hq h.symm
        rw [if_neg this, ih, if_neg hq, alookup_cons,
          if_neg (fun hpq : p.1 = q => hq (by rw [← hpq]; exact hp))]
    · simp only [List.map_cons, if_neg hp]
      rw [alookup_cons, List.find?_cons_of_neg _ (by simp [hp]), alookup_cons]
      by_cases hpq : p.1 = q
      · have hq : ¬(q = k) := fun h => hp (hpq.trans h)
        rw [if_pos hpq, if_neg hq, if_pos hpq]
      · rw [if_neg hpq, if_neg hpq, ih]

theorem alookup_ainsert {α : Type} (l : List (String × α)) (k q : String) (v : α) :
    alookup (ainsert l k v) q = if q = k then some v else alookup l q := by
  unfold ainsert
  by_cases hc : (List.find? (fun p => p.1 = k) l).isSome
  · rw [if_pos hc, alookup_map_update]
    obtain ⟨a, ha⟩ := Option.isSome_iff_exists.mp hc
    by_cases hq : q = k <;> simp [hq, ha]
  · rw [if_neg hc, alookup_append]
    have hnone : List.find? (fun p => p.1 = k) l = none := by
      cases h : List.find? (fun p => p.1 = k) l
      · rfl
      · simp [h] at hc
    by_cases hq : q = k
    · subst hq
      have : alookup l q = none := by
        simp only [alookup, hnone]
        rfl
      simp [this, alookup_cons]
    · rw [if_neg hq, alookup_cons]
      have : ¬((k, v).1 = q) := by simpa using fun h => hq h.symm
      rw [if_neg this]
      cases h : alookup l q <;> simp [alookup_nil]

theorem alookup_ainsert_self {α : Type} (l : List (String × α)) (k : String) (v : α) :
    alookup (ainsert l k v) k = some v := by
  rw [alookup_ainsert, if_pos rfl]

theorem alookup_ainsert_ne {α : Type} (l : List (String × α)) (k q : String) (v : α)
    (h : q ≠ k) : alookup (ainsert l k v) q = alookup l q := by
  rw [alookup_ainsert, if_neg h]

/-- `ainsert` with an absent key appends; with a present key it maps in
place: either way the length grows iff the key was absent. -/
theorem ainsert_length {α : Type} (l : List (String × α)) (k : String) (v : α) :
    (ainsert l k v).length = if (alookup l k).isSome then l.length else l.length + 1 := by
  unfold ainsert
  by_cases hc : (List.find? (fun p => p.1 = k) l).isSome
  · rw [if_pos hc]
    simp [alookup, hc]
  · rw [if_neg hc]
    have : ¬(alookup l k).isSome := by simpa [alookup] using hc
    simp [this]

/-- Membership in an `ainsert`ed list: the new pair, or an old pair whose
key differs from the inserted one. -/
theorem mem_ainsert {α : Type} {l : List (String × α)} {k : String} {v : α}
    {e : String × α} (h : e ∈ ainsert l k v) : e = (k, v) ∨ (e ∈ l ∧ e.1 ≠ k) := by
  unfold ainsert at h
  by_cases hc : (List.find? (fun p => p.1 = k) l).isSome
  · rw [if_pos hc] at h
    obtain ⟨p, hp, hpe⟩ := List.mem_map.mp h
    by_cases hpk : p.1 = k
    · left; rw [← hpe, if_pos hpk]
    · right; rw [← hpe, if_neg hpk]; exact ⟨hp, hpk⟩
  · rw [if_neg hc] at h
    rcases List.mem_append.mp h with h' | h'
    · right
      refine ⟨h', fun hk => ?_⟩
      have hnone : List.find? (fun p => p.1 = k) l = none := by
        cases hfind : List.find? (fun p => p.1 = k) l
        · rfl
        · simp [hfind] at hc
      have hne := List.find?_eq_none.mp hnone e h'
      exact hne (by simpa using hk)
    · left; simpa using h'

/-! ## Claim C9: default filtering mode equals the explicit continue mode -/

theorem filterLoop_go (images : List String) (hasSidecar : String → Bool)
    (acc : List String × ℕ) :
    images.foldl
        (fun acc img =>
          if hasSidecar img then (acc.1, acc.2 + 1) else (acc.1 ++ [img], acc.2))
        acc =
      (acc.1 ++ images.filter (fun i => !hasSidecar i),
        acc.2 + (images.filter (fun i => hasSidecar i)).length) := by
  induction images generalizing acc with
  | nil => simp
  | cons i t ih =>
    by_cases h : hasSidecar i
    · simp [h, ih, Nat.add_comm, Nat.add_assoc, Nat.add_left_comm]
    · simp [h, ih]

/-- C9: filtering with no explicit mode flag (`force = False`,
`only_missing = False`) returns exactly the same (to-process, skipped)
result as filtering with the explicit continue flag
(`only_missing = True`): the default is "skip existing".  The last two
conjuncts characterise that common result: kept images are exactly those
without a sidecar, the skip count is the number with one. -/
theorem filter_images_default_eq_continue (images : List String)
    (hasSidecar : String → Bool) :
    filter_images_by_mode images hasSidecar false false =
        filter_images_by_mode images hasSidecar false true
      ∧ (filter_images_by_mode images hasSidecar false false).1 =
          images.filter (fun i => !hasSidecar i)
      ∧ (filter_images_by_mode images hasSidecar false false).2 =
          (images.filter (fun i => hasSidecar i)).length := by
  refine ⟨rfl, ?_, ?_⟩ <;>
    simp [filter_images_by_mode, filterLoop, filterLoop_go]

/-! ## Claim C5: no concurrency slot is leaked on any exit path -/

theorem applySlotOps_append (a : ℕ) (l₁ l₂ : List SlotOp) :
    applySlotOps a (l₁ ++ l₂) = applySlotOps (applySlotOps a l₁) l₂ :=
  List.foldl_append _ _ _ _

theorem applySlotOps_attempt (a : ℕ) (p : AttemptExit) :
    applySlotOps a (attemptOps p) = a := by
  cases p <;> simp [attemptOps, applySlotOps]

/-- C5: on every exit path of an attempt — normal completion, any raised
error, cancellation inside the remote call, cancellation after release —
`active_tasks` returns to its pre-acquisition value; a task cancelled
while waiting in `acquire` performs no limiter call at all (in particular
`active_tasks` is never incremented); and a whole retry loop (any
sequence of attempt exits) leaves `active_tasks` unchanged. -/
theorem slot_released_on_every_exit (a : ℕ) (p : AttemptExit)
    (paths : List AttemptExit) :
    applySlotOps a (attemptOps p) = a
      ∧ attemptOps .cancelledWhileWaiting = []
      ∧ applySlotOps a (paths.foldr (fun q ops => attemptOps q ++ ops) []) = a := by
  refine ⟨applySlotOps_attempt a p, rfl, ?_⟩
  induction paths generalizing a with
  | nil => rfl
  | cons q rest ih =>
    simp only [List.foldr_cons, applySlotOps_append, applySlotOps_attempt]
    exact ih a

/-! ## Claim C4: retry exhaustion is decided by the item-local counter -/

theorem runAttempts_fst_indep (outcomes : List AttemptOutcome) :
    ∀ (k : ℕ) (s t : ConcurrencyLimiter),
      (runAttempts k outcomes s).1 = (runAttempts k outcomes t).1 := by
  induction outcomes with
  | nil => intro k s t; rfl
  | cons o rest ih =>
    intro k s t
    cases o
    · rfl
    · simp only [runAttempts]
      by_cases h : maxRetries ≤ k + 1
      · simp [h]
      · simp only [if_neg h]; exact ih (k + 1) _ _
    · simp only [runAttempts]
      by_cases h : maxRetries ≤ k + 1
      · simp [h]
      · simp only [if_neg h]; exact ih (k + 1) _ _
    · rfl
    · rfl

/-- C4: the verdict of `process_single_image` for one work item is a
function of the item's own attempt trace alone: it is identical for any
two states of the shared limiter (in particular it is unchanged when
another worker's success resets the shared consecutive-failure counter
behind `should_give_up`), the item fails after exactly
`max_retries = 5` rate-limited attempts, and four rate-limited attempts
followed by a success still succeed. -/
theorem retry_exhaustion_is_local (outcomes : List AttemptOutcome)
    (s t : ConcurrencyLimiter) :
    ((runAttempts 0 outcomes s).1 = (runAttempts 0 outcomes t).1)
      ∧ ((runAttempts 0 outcomes s.record_success).1 = (runAttempts 0 outcomes s).1)
      ∧ ((runAttempts 0 (List.replicate 5 .rateLimited) s).1 = .failedRateLimit)
      ∧ ((runAttempts 0 (List.replicate 4 .rateLimited ++ [.success]) s).1 = .succeeded) :=
  ⟨runAttempts_fst_indep outcomes 0 s t,
    runAttempts_fst_indep outcomes 0 s.record_success s, rfl, rfl⟩

/-! ## Claim C7: near-duplicate classification is the Hamming threshold test -/

/-- C7: for non-empty, equal-length perceptual hashes (valid hex, as
produced by `compute_phash`), `are_similar_images` returns `true` exactly
when the Hamming distance is at most the threshold. -/
theorem are_similar_iff_hamming_le (h₁ h₂ : String) (t : ℤ)
    (hne₁ : h₁ ≠ "") (hne₂ : h₂ ≠ "") (hlen : h₁.length = h₂.length)
    (hx₁ : isHexString h₁) (hx₂ : isHexString h₂) :
    are_similar_images h₁ h₂ t = true ↔ hamming_distance h₁ h₂ ≤ t := by
  have h0 : 0 ≤ hamming_distance h₁ h₂ := by
    unfold hamming_distance
    rw [if_neg (by simp [hne₁, hne₂]), if_neg (by simp [hlen])]
    exact Int.natCast_nonneg _
  simp only [are_similar_images]
  rw [if_neg (not_lt.mpr h0)]
  simp

theorem are_similar_iff_hamming_le_witness :
    (("00" : String) ≠ "" ∧ ("ff" : String) ≠ "" ∧
        String.length "00" = String.length "ff" ∧
        isHexString "00" ∧ isHexString "ff")
      ∧ (are_similar_images "00" "ff" 10 = true ↔ hamming_distance "00" "ff" ≤ 10)
      ∧ hamming_distance "00" "ff" = 8
      ∧ are_similar_images "0fff" "0000" 10 = false
      ∧ hamming_distance "0fff" "0000" = 12 :=
  ⟨by refine ⟨by decide, by decide, by decide, ?_, ?_⟩ <;> exact ⟨by decide, by decide⟩,
    are_similar_iff_hamming_le "00" "ff" 10 (by decide) (by decide) (by decide)
      ⟨by decide, by decide⟩ ⟨by decide, by decide⟩,
    by decide, by decide, by decide⟩

/-! ## Claim C1: concurrency bounds and unit adaptation steps -/

theorem CL_step_fields (s : ConcurrencyLimiter) (e : CLEvent) :
    (s.step e).min_concurrency = s.min_concurrency
      ∧ (s.step e).max_concurrency = s.max_concurrency
      ∧ (s.step e).restore_threshold = s.restore_threshold := by
  cases e
  · simp [ConcurrencyLimiter.step, ConcurrencyLimiter.record_rate_limit]
  · simp only [ConcurrencyLimiter.step, ConcurrencyLimiter.record_success]
    split <;> simp

theorem CL_step_inv (s : ConcurrencyLimiter) (e : CLEvent)
    (hlo : s.min_concurrency ≤ s.current_concurrency)
    (hhi : s.current_concurrency ≤ s.max_concurrency) :
    s.min_concurrency ≤ (s.step e).current_concurrency
      ∧ (s.step e).current_concurrency ≤ s.max_concurrency := by
  cases e
  · simp only [ConcurrencyLimiter.step, ConcurrencyLimiter.record_rate_limit]
    omega
  · simp only [ConcurrencyLimiter.step, ConcurrencyLimiter.record_success]
    split
    · next h => simp; omega
    · simpa using ⟨hlo, hhi⟩

theorem CL_run_inv (evs : List CLEvent) :
    ∀ (s : ConcurrencyLimiter),
      s.min_concurrency ≤ s.current_concurrency →
      s.current_concurrency ≤ s.max_concurrency →
      s.min_concurrency ≤ (s.run evs).current_concurrency
        ∧ (s.run evs).current_concurrency ≤ s.max_concurrency := by
  induction evs with
  | nil => intro s hlo hhi; exact ⟨hlo, hhi⟩
  | cons e rest ih =>
    intro s hlo hhi
    have hfields := CL_step_fields s e
    have hstep := CL_step_inv s e hlo hhi
    have := ih (s.step e) (hfields.1 ▸ hstep.1) (hfields.2.1 ▸ hstep.2)
    simpa [ConcurrencyLimiter.run, hfields.1, hfields.2.1] using this

theorem CL_restore_aux :
    ∀ (m : ℕ) (s : ConcurrencyLimiter),
      s.successes_since_reduction + m = s.restore_threshold →
      s.successes_since_reduction < s.restore_threshold →
      s.current_concurrency < s.max_concurrency →
      (ConcurrencyLimiter.record_success^[m] s).current_concurrency =
        s.current_concurrency + 1 := by
  intro m
  induction m with
  | zero => intro s h1 h2 _; omega
  | succ n ih =>
    intro s h1 h2 h3
    rw [Function.iterate_succ_apply]
    by_cases h : s.restore_threshold ≤ s.successes_since_reduction + 1
    · have hn : n = 0 := by omega
      subst hn
      simp only [Function.iterate_zero, id_eq, ConcurrencyLimiter.record_success]
      rw [if_pos ⟨h, h3⟩]
    · have hs' : s.record_success =
          { s with
            successes_since_reduction := s.successes_since_reduction + 1
            consecutive_failures := 0
            consecutive_server_errors := 0 } := by
        simp only [ConcurrencyLimiter.record_success]
        rw [if_neg (fun hc => h hc.1)]
      rw [hs']
      exact ih _ (by simpa using by omega) (by simpa using by omega) (by simpa using h3)

/-- C1: starting from any state satisfying
`min_concurrency ≤ current_concurrency ≤ max_concurrency` (with a positive
success-run length), every interleaving of `record_rate_limit` and
`record_success` keeps `current_concurrency` within
`[min_concurrency, max_concurrency]`; every single event changes it by at
most one; `record_rate_limit` decreases it by exactly 1 until the
`min_concurrency` floor; and after a reduction, a run of
`restore_threshold` consecutive successes restores it by exactly 1 (back
to its pre-reduction value, hence never above `max_concurrency`). -/
theorem concurrency_limiter_adaptation (s : ConcurrencyLimiter)
    (evs : List CLEvent) (e : CLEvent)
    (hlo : s.min_concurrency ≤ s.current_concurrency)
    (hhi : s.current_concurrency ≤ s.max_concurrency)
    (hthr : 0 < s.restore_threshold) :
    (s.min_concurrency ≤ (s.run evs).current_concurrency
        ∧ (s.run evs).current_concurrency ≤ s.max_concurrency)
      ∧ ((s.step e).current_concurrency = s.current_concurrency
          ∨ (s.step e).current_concurrency = s.current_concurrency + 1
          ∨ (s.step e).current_concurrency + 1 = s.current_concurrency)
      ∧ (s.record_rate_limit.current_concurrency =
          if s.min_concurrency < s.current_concurrency then
            s.current_concurrency - 1
          else s.current_concurrency)
      ∧ (s.min_concurrency < s.current_concurrency →
          (ConcurrencyLimiter.record_success^[s.restore_threshold]
              s.record_rate_limit).current_concurrency =
            s.current_concurrency) := by
  refine ⟨CL_run_inv evs s hlo hhi, ?_, ?_, ?_⟩
  · cases e
    · simp only [ConcurrencyLimiter.step, ConcurrencyLimiter.record_rate_limit]
      omega
    · simp only [ConcurrencyLimiter.step, ConcurrencyLimiter.record_success]
      split
      · simp
      · simp
  · simp only [ConcurrencyLimiter.record_rate_limit]
    split <;> omega
  · intro hstrict
    have hred : s.record_rate_limit.current_concurrency =
        s.current_concurrency - 1 := by
      simp only [ConcurrencyLimiter.record_rate_limit]
      omega
    have h := CL_restore_aux s.restore_threshold s.record_rate_limit
      (by simp [ConcurrencyLimiter.record_rate_limit])
      (by simpa [ConcurrencyLimiter.record_rate_limit] using hthr)
      (by simp only [ConcurrencyLimiter.record_rate_limit]; omega)
    rw [h, hred]
    omega

theorem concurrency_limiter_adaptation_witness :
    (limiterInit.min_concurrency ≤ limiterInit.current_concurrency
        ∧ limiterInit.current_concurrency ≤ limiterInit.max_concurrency
        ∧ 0 < limiterInit.restore_threshold)
      ∧ ((limiterInit.min_concurrency ≤
            (limiterInit.run [.rateLimit, .success, .success, .success]).current_concurrency
          ∧ (limiterInit.run
                [.rateLimit, .success, .success, .success]).current_concurrency ≤
              limiterInit.max_concurrency)
        ∧ ((limiterInit.step .rateLimit).current_concurrency =
              limiterInit.current_concurrency
            ∨ (limiterInit.step .rateLimit).current_concurrency =
                limiterInit.current_concurrency + 1
            ∨ (limiterInit.step .rateLimit).current_concurrency + 1 =
                limiterInit.current_concurrency)
        ∧ (limiterInit.record_rate_limit.current_concurrency =
            if limiterInit.min_concurrency < limiterInit.current_concurrency then
              limiterInit.current_concurrency - 1
            else limiterInit.current_concurrency)
        ∧ (limiterInit.min_concurrency < limiterInit.current_concurrency →
            (ConcurrencyLimiter.record_success^[limiterInit.restore_threshold]
                limiterInit.record_rate_limit).current_concurrency =
              limiterInit.current_concurrency)) :=
  ⟨⟨by decide, by decide, by decide⟩,
    concurrency_limiter_adaptation limiterInit
      [.rateLimit, .success, .success, .success] .rateLimit
      (by decide) (by decide) (by decide)⟩

/-! ## Claims C2 and C3: rate-limiter wait times and the delay invariant -/

theorem record_failure_none_wait_mem (s : RateLimiter) (b : Bool) (j : ℝ)
    (hmm : s.min_delay ≤ s.max_delay) :
    s.min_delay ≤ (s.record_failure none b j).1
      ∧ (s.record_failure none b j).1 ≤ s.max_delay := by
  simp only [RateLimiter.record_failure, RateLimiter.add_result]
  exact ⟨le_max_right _ _, max_le (min_le_right _ _) hmm⟩

theorem base_wait_mono (s : RateLimiter) (b : Bool) (cf₁ cf₂ : ℕ)
    (hb : 1 ≤ s.base_backoff) (hcf : cf₁ ≤ cf₂) :
    s.base_wait cf₁ b ≤ s.base_wait cf₂ b := by
  unfold RateLimiter.base_wait
  have hmin : ((min cf₁ s.max_backoff_attempts : ℕ) : ℝ) ≤
      ((min cf₂ s.max_backoff_attempts : ℕ) : ℝ) :=
    Nat.cast_le.mpr (min_le_min hcf le_rfl)
  cases b
  · simpa using Real.rpow_le_rpow_of_exponent_le hb hmin
  · simpa using Real.rpow_le_rpow_of_exponent_le hb
      (mul_le_mul_of_nonneg_right hmin (by norm_num))

/-- C2 counterexample: with the dataclass defaults
(`min_delay = 1`, `max_delay = 300`), a `record_failure` call carrying the
server hint `retry_after = 1000` returns a wait of `1100` seconds —
outside `[min_delay, max_delay]`.  The claim's "always within
`[min_delay, max_delay]`, including calls that pass a server-provided
retry_after hint" is false on the code: the hint branch returns
`retry_after * 1.1` without clamping. -/
theorem record_failure_hint_unclamped :
    (RateLimiter.default.record_failure (some 1000) false 0).1 >
      RateLimiter.default.max_delay := by
  simp only [RateLimiter.record_failure, RateLimiter.add_result, RateLimiter.default]
  norm_num

/-- C2 (amended): without a server hint the returned wait is always within
`[min_delay, max_delay]` (whatever the jitter), and the jitter-free
backoff `base_backoff ** min(consecutive_failures, max_backoff_attempts)`
(halved exponent for server errors) is monotone non-decreasing in
`consecutive_failures`; a call with a server hint instead returns exactly
`retry_after * 1.1`, unclamped. -/
theorem record_failure_wait_properties (s : RateLimiter) (j r : ℝ) (b : Bool)
    (cf₁ cf₂ : ℕ) (hmm : s.min_delay ≤ s.max_delay) (hb : 1 ≤ s.base_backoff)
    (hcf : cf₁ ≤ cf₂) :
    (s.min_delay ≤ (s.record_failure none b j).1
        ∧ (s.record_failure none b j).1 ≤ s.max_delay)
      ∧ s.base_wait cf₁ b ≤ s.base_wait cf₂ b
      ∧ (s.record_failure (some r) b j).1 = r * 1.1 :=
  ⟨record_failure_none_wait_mem s b j hmm, base_wait_mono s b cf₁ cf₂ hb hcf, rfl⟩

theorem record_failure_wait_properties_witness :
    (RateLimiter.default.min_delay ≤ RateLimiter.default.max_delay
        ∧ (1 : ℝ) ≤ RateLimiter.default.base_backoff)
      ∧ ((RateLimiter.default.min_delay ≤
            (RateLimiter.default.record_failure none false 0).1
          ∧ (RateLimiter.default.record_failure none false 0).1 ≤
              RateLimiter.default.max_delay)
        ∧ RateLimiter.default.base_wait 1 false ≤ RateLimiter.default.base_wait 2 false
        ∧ (RateLimiter.default.record_failure (some 10) false 0).1 = 10 * 1.1) :=
  ⟨⟨by norm_num [RateLimiter.default], by norm_num [RateLimiter.default]⟩,
    record_failure_wait_properties RateLimiter.default 0 10 false 1 2
      (by norm_num [RateLimiter.default]) (by norm_num [RateLimiter.default])
      (by norm_num)⟩

theorem default_delayInv : RateLimiter.default.delayInv := by
  constructor <;> norm_num [RateLimiter.default, RateLimiter.delayInv]

theorem record_success_delayInv (s : RateLimiter) (h0 : 0 ≤ s.min_delay)
    (hinv : s.delayInv) : s.record_success.delayInv := by
  obtain ⟨h1, h2⟩ := hinv
  constructor
  · simp only [RateLimiter.record_success, RateLimiter.add_result]
    exact le_max_left _ _
  · simp only [RateLimiter.record_success, RateLimiter.add_result]
    exact max_le (h1.trans h2)
      ((mul_le_of_le_one_right (h0.trans h1) (by norm_num)).trans h2)

theorem record_failure_none_delayInv (s : RateLimiter) (b : Bool) (j : ℝ)
    (hinv : s.delayInv) : (s.record_failure none b j).2.delayInv := by
  obtain ⟨h1, h2⟩ := hinv
  have hw := record_failure_none_wait_mem s b j (h1.trans h2)
  constructor
  · simp only [RateLimiter.record_failure, RateLimiter.add_result] at hw ⊢
    exact h1.trans (le_max_left _ _)
  · simp only [RateLimiter.record_failure, RateLimiter.add_result] at hw ⊢
    exact max_le h2 hw.2

theorem record_failure_hint_lower (s : RateLimiter) (b : Bool) (j r : ℝ)
    (hinv : s.delayInv) :
    s.min_delay ≤ (s.record_failure (some r) b j).2.current_delay := by
  simp only [RateLimiter.record_failure, RateLimiter.add_result]
  exact hinv.1.trans (le_max_left _ _)

theorem record_failure_hint_delayInv (s : RateLimiter) (b : Bool) (j r : ℝ)
    (hinv : s.delayInv) (hra : r * 1.1 ≤ s.max_delay) :
    (s.record_failure (some r) b j).2.delayInv := by
  constructor
  · exact record_failure_hint_lower s b j r hinv
  · simp only [RateLimiter.record_failure, RateLimiter.add_result]
    exact max_le hinv.2 hra

theorem wait_if_needed_delayInv (s : RateLimiter) (now now' : ℝ)
    (hinv : s.delayInv) : (s.wait_if_needed now now').2.delayInv := by
  simpa only [RateLimiter.wait_if_needed, RateLimiter.delayInv] using hinv

/-- C3 counterexample: the invariant holds in the initial state, but a
single `record_failure` with the hint `retry_after = 1000` raises
`current_delay` to `1100 > max_delay = 300`.  The claim that the
invariant is preserved by *every* operation including hinted
`record_failure` is false on the code. -/
theorem record_failure_hint_breaks_delay_invariant :
    RateLimiter.default.delayInv
      ∧ ¬(RateLimiter.default.record_failure (some 1000) false 0).2.delayInv := by
  refine ⟨default_delayInv, fun h => ?_⟩
  have h2 := h.2
  simp only [RateLimiter.record_failure, RateLimiter.add_result,
    RateLimiter.default] at h2
  rw [max_le_iff] at h2
  norm_num at h2

/-- C3 (amended): `min_delay ≤ current_delay ≤ max_delay` holds initially
and is preserved by `record_success`, by `record_failure` without a hint,
and by `wait_if_needed`; `record_failure` with a hint always preserves the
lower bound, but preserves the upper bound only when
`retry_after * 1.1 ≤ max_delay` — it raises `current_delay` to at least
the hinted wait, above `max_delay` for large hints. -/
theorem delay_invariant_preservation (s : RateLimiter) (j r now now' : ℝ)
    (b : Bool) (h0 : 0 ≤ s.min_delay) (hinv : s.delayInv) :
    RateLimiter.default.delayInv
      ∧ s.record_success.delayInv
      ∧ (s.record_failure none b j).2.delayInv
      ∧ s.min_delay ≤ (s.record_failure (some r) b j).2.current_delay
      ∧ (r * 1.1 ≤ s.max_delay → (s.record_failure (some r) b j).2.delayInv)
      ∧ (s.wait_if_needed now now').2.delayInv :=
  ⟨default_delayInv, record_success_delayInv s h0 hinv,
    record_failure_none_delayInv s b j hinv,
    record_failure_hint_lower s b j r hinv,
    fun hra => record_failure_hint_delayInv s b j r hinv hra,
    wait_if_needed_delayInv s now now' hinv⟩

theorem delay_invariant_preservation_witness :
    ((0 : ℝ) ≤ RateLimiter.default.min_delay ∧ RateLimiter.default.delayInv)
      ∧ (RateLimiter.default.delayInv
        ∧ RateLimiter.default.record_success.delayInv
        ∧ (RateLimiter.default.record_failure none false 0).2.delayInv
        ∧ RateLimiter.default.min_delay ≤
            (RateLimiter.default.record_failure (some 10) false 0).2.current_delay
        ∧ ((10 : ℝ) * 1.1 ≤ RateLimiter.default.max_delay →
            (RateLimiter.default.record_failure (some 10) false 0).2.delayInv)
        ∧ (RateLimiter.default.wait_if_needed 0 0).2.delayInv) :=
  ⟨⟨by norm_num [RateLimiter.default], default_delayInv⟩,
    delay_invariant_preservation RateLimiter.default 0 10 0 0 false
      (by norm_num [RateLimiter.default]) default_delayInv⟩

/-! ## Claim C8: manifest loading on absent and corrupt files -/

/-- C8 counterexample: two corrupt manifest files on which the claim's
"returns an empty manifest (rather than raising)" fails.  A readable
manifest whose bytes are not valid UTF-8 makes `f.read()` inside
`json.load` raise `UnicodeDecodeError`, which
`except (json.JSONDecodeError, OSError)` at hashing.py line 262 does not
catch — the load raises instead of returning.  And a readable manifest
containing the valid JSON `[1, 2]` is returned unchanged — not an empty
manifest, and not anything shaped like a manifest
(`manifest["hashes"]` downstream then fails). -/
theorem load_hash_manifest_corrupt_fails :
    load_hash_manifest "t" .notUtf8 = .unicodeDecodeError
      ∧ load_hash_manifest "t" (.parsed corruptManifestJ) = .returns corruptManifestJ
      ∧ corruptManifestJ ≠ emptyManifestJ "t"
      ∧ isManifestShaped corruptManifestJ = false := by
  refine ⟨rfl, rfl, fun h => ?_, rfl⟩
  simp only [corruptManifestJ, emptyManifestJ] at h
  exact JVal.noConfusion h

/-- C8 (amended): an absent manifest file, a file whose read fails with
`OSError`, and a file whose text fails JSON-decoding all yield the fresh
empty manifest (which is manifest-shaped); but a readable file whose
bytes are not valid UTF-8 raises an uncaught `UnicodeDecodeError`, and a
readable file holding valid JSON of the wrong shape is returned as-is,
unvalidated. -/
theorem load_hash_manifest_spec (now : String) (j : JVal) :
    load_hash_manifest now .absent = .returns (emptyManifestJ now)
      ∧ load_hash_manifest now .notJson = .returns (emptyManifestJ now)
      ∧ isManifestShaped (emptyManifestJ now) = true
      ∧ load_hash_manifest now (.parsed j) = .returns j
      ∧ load_hash_manifest now .notUtf8 = .unicodeDecodeError :=
  ⟨rfl, rfl, rfl, rfl, rfl⟩

/-! ## Claim C10: response parsing -/

theorem dropWhile_cons_false {p : Char → Bool} (c : Char) (t : List Char)
    (h : p c = false) : (c :: t).dropWhile p = c :: t := by
  simp [List.dropWhile_cons, h]

theorem pyStrip_eq_self_of (l : List Char)
    (h1 : l.dropWhile pyWhitespace = l)
    (h2 : l.reverse.dropWhile pyWhitespace = l.reverse) : pyStrip l = l := by
  unfold pyStrip
  rw [h1, h2, List.reverse_reverse]

theorem pyStrip_fenced (s : List Char) :
    pyStrip (fenceJson ++ s ++ fence3) = fenceJson ++ s ++ fence3 := by
  apply pyStrip_eq_self_of
  · rw [show fenceJson ++ s ++ fence3 =
        '`' :: ('`' :: '`' :: 'j' :: 's' :: 'o' :: 'n' :: (s ++ fence3)) from by
      simp [fenceJson]]
    exact dropWhile_cons_false _ _ rfl
  · rw [show (fenceJson ++ s ++ fence3).reverse =
        '`' :: ('`' :: '`' :: (s.reverse ++ ['n', 'o', 's', 'j', '`', '`', '`'])) from by
      simp [fenceJson, fence3]]
    exact dropWhile_cons_false _ _ rfl

theorem stripFences_fenced (s : List Char) (hne : s ≠ []) (htrim : pyStrip s = s)
    (hbt : '`' ∉ s) : stripFences (fenceJson ++ s ++ fence3) = s := by
  obtain ⟨c, s', rfl⟩ := List.exists_cons_of_ne_nil hne
  have hc : c ≠ '`' := fun h => hbt (h ▸ List.mem_cons_self c s')
  have hpre : fenceJson.isPrefixOf (fenceJson ++ (c :: s') ++ fence3) = true := by
    simp [fenceJson, List.isPrefixOf]
  have hdrop : (fenceJson ++ (c :: s') ++ fence3).drop 7 = (c :: s') ++ fence3 := by
    rw [List.append_assoc, show (7 : ℕ) = fenceJson.length from rfl, List.drop_left]
  have hno3 : fence3.isPrefixOf ((c :: s') ++ fence3) = false := by
    simp only [fence3, List.cons_append, List.isPrefixOf]
    simp [beq_eq_false_iff_ne, Ne.symm hc]
  have hsuf : fence3.reverse.isPrefixOf (((c :: s') ++ fence3).reverse) = true := by
    rw [List.reverse_append]
    simp [fence3, List.isPrefixOf]
  have htake : ((c :: s') ++ fence3).take (((c :: s') ++ fence3).length - 3) = c :: s' := by
    rw [show ((c :: s') ++ fence3).length - 3 = (c :: s').length from by
      simp [fence3]]
    exact List.take_left _ _
  simp only [stripFences, pyStrip_fenced, hpre, if_true, hdrop, hno3,
    Bool.false_eq_true, if_false, hsuf, htake, htrim]

theorem stripFences_id (s : List Char) (hne : s ≠ []) (htrim : pyStrip s = s)
    (hbt : '`' ∉ s) : stripFences s = s := by
  obtain ⟨c, s', h⟩ := List.exists_cons_of_ne_nil hne
  have hc : c ≠ '`' := fun hcc => hbt (hcc ▸ (h ▸ List.mem_cons_self c s'))
  have hno7 : fenceJson.isPrefixOf s = false := by
    rw [h]
    simp only [fenceJson, List.isPrefixOf]
    simp [beq_eq_false_iff_ne, Ne.symm hc]
  have hno3 : fence3.isPrefixOf s = false := by
    rw [h]
    simp only [fence3, List.isPrefixOf]
    simp [beq_eq_false_iff_ne, Ne.symm hc]
  have hrevne : s.reverse ≠ [] := by
    simpa using hne
  obtain ⟨d, r, hrev⟩ := List.exists_cons_of_ne_nil hrevne
  have hd : d ≠ '`' := by
    intro hdd
    apply hbt
    have : d ∈ s.reverse := hrev ▸ List.mem_cons_self d r
    exact hdd ▸ (List.mem_reverse.mp this)
  have hnos : fence3.reverse.isPrefixOf s.reverse = false := by
    rw [hrev]
    simp only [fence3, List.reverse_cons, List.reverse_nil, List.nil_append,
      List.cons_append, List.isPrefixOf]
    simp [beq_eq_false_iff_ne, Ne.symm hd]
  simp only [stripFences, htrim, hno7, Bool.false_eq_true, if_false, hno3, hnos]

/-- C10 counterexample: the response content `"42"` is valid JSON, so the
claim demands a `CopilotError` for the missing `emojis` field; instead
`"emojis" not in parsed` is evaluated on the integer `42` and raises
`TypeError: argument of type 'int' is not iterable`, which no handler in
`_parse_response_content` catches. -/
theorem parse_response_content_num_type_error :
    parse_response_content loadsNum ['4', '2'] = .typeError := rfl

/-- C10 (amended): after fence stripping, unparseable JSON raises
`CopilotError`; content parsing to a JSON object either returns it (when
`emojis` is present and non-empty) or raises `CopilotError` (when missing
or falsy); surrounding ```json fences are stripped before parsing and
never change the outcome by themselves.  Content parsing to non-object
JSON can instead raise an uncaught `TypeError`
(`parse_response_content_num_type_error`). -/
theorem parse_response_content_spec (loads : List Char → Except String JVal)
    (content : List Char) (e : String) (kvs : List (String × JVal))
    (s : List Char) (hne : s ≠ []) (htrim : pyStrip s = s) (hbt : '`' ∉ s) :
    (loads (stripFences content) = .error e →
        parse_response_content loads content = .copilotError)
      ∧ (loads (stripFences content) = .ok (.obj kvs) →
          parse_response_content loads content =
            match kvs.find? (fun p => p.1 = "emojis") with
            | none => .copilotError
            | some p => if p.2.isFalsy then .copilotError else .ok (.obj kvs))
      ∧ stripFences (fenceJson ++ s ++ fence3) = s
      ∧ stripFences s = s
      ∧ parse_response_content loads (fenceJson ++ s ++ fence3) =
          parse_response_content loads s := by
  refine ⟨?_, ?_, stripFences_fenced s hne htrim hbt, stripFences_id s hne htrim hbt, ?_⟩
  · intro h
    simp only [parse_response_content, h]
  · intro h
    simp only [parse_response_content, h, validateParsed, pyContains, pySubscript]
    cases hf : kvs.find? (fun p => p.1 = "emojis") with
    | none => simp [hf]
    | some p => simp [hf]
  · unfold parse_response_content
    rw [stripFences_fenced s hne htrim hbt, stripFences_id s hne htrim hbt]

theorem parse_response_content_spec_witness :
    ((['a'] : List Char) ≠ [] ∧ pyStrip ['a'] = ['a'] ∧ '`' ∉ (['a'] : List Char))
      ∧ ((loadsNum (stripFences ['4', '2']) = .error "unparseable" →
            parse_response_content loadsNum ['4', '2'] = .copilotError)
        ∧ (loadsNum (stripFences ['4', '2']) =
              .ok (.obj ([] : List (String × JVal))) →
            parse_response_content loadsNum ['4', '2'] =
              match ([] : List (String × JVal)).find? (fun p => p.1 = "emojis") with
              | none => .copilotError
              | some p => if p.2.isFalsy then .copilotError
                  else .ok (.obj ([] : List (String × JVal))))
        ∧ stripFences (fenceJson ++ ['a'] ++ fence3) = ['a']
        ∧ stripFences ['a'] = ['a']
        ∧ parse_response_content loadsNum (fenceJson ++ ['a'] ++ fence3) =
            parse_response_content loadsNum ['a']) :=
  ⟨⟨by decide, by decide, by decide⟩,
    parse_response_content_spec loadsNum ['4', '2'] "unparseable" [] ['a']
      (by decide) (by decide) (by decide)⟩

/-! ## Claim C6: deduplication machinery -/

theorem add_path_lookup (idx : HashIndex) (p sha ph q : String) :
    alookup (idx.add p sha ph).path_to_hashes q =
      if q = p then some (sha, ph) else alookup idx.path_to_hashes q := by
  simp only [HashIndex.add]
  exact alookup_ainsert _ _ _ _

theorem add_sha_lookup (idx : HashIndex) (p sha ph q : String) :
    alookup (idx.add p sha ph).sha256_to_path q =
      if q = sha then some p else alookup idx.sha256_to_path q := by
  simp only [HashIndex.add]
  exact alookup_ainsert _ _ _ _

theorem WF_add (idx : HashIndex) (p sha ph : String) (hwf : idx.WF)
    (hfresh : alookup idx.path_to_hashes p = none) : (idx.add p sha ph).WF := by
  have hold : ∀ e ∈ idx.phash_to_paths, ∀ q ∈ e.2,
      ∃ sha', alookup (idx.add p sha ph).path_to_hashes q = some (sha', e.1) := by
    intro e he q hq
    obtain ⟨sha', hsha'⟩ := hwf e he q hq
    have hqp : q ≠ p := by
      intro h
      rw [h, hfresh] at hsha'
      exact Option.noConfusion hsha'
    refine ⟨sha', ?_⟩
    rw [add_path_lookup, if_neg hqp]
    exact hsha'
  intro e he q hq
  by_cases hph : ph ≠ ""
  · simp only [HashIndex.add, if_pos hph] at he
    cases hb : alookup idx.phash_to_paths ph with
    | some ps =>
      rw [hb] at he
      rcases mem_ainsert he with heq | ⟨hmem, hne⟩
      · subst heq
        rcases List.mem_append.mp hq with hq' | hq'
        · -- q sits in the pre-existing bucket of `ph`
          obtain ⟨pr, hpr⟩ : ∃ pr, List.find? (fun x => x.1 = ph) idx.phash_to_paths = some pr := by
            simp only [alookup] at hb
            cases hfind : List.find? (fun x => x.1 = ph) idx.phash_to_paths with
            | none => rw [hfind] at hb; exact Option.noConfusion hb
            | some pr => exact ⟨pr, rfl⟩
          have hpr1 : pr.1 = ph := by simpa using List.find?_some hpr
          have hpr2 : pr.2 = ps := by
            simp only [alookup, hpr] at hb
            simpa using hb
          have hprmem : pr ∈ idx.phash_to_paths := List.mem_of_find?_eq_some hpr
          obtain ⟨sha', hsha'⟩ := hold pr hprmem q (hpr2 ▸ hq')
          exact ⟨sha', hpr1 ▸ hsha'⟩
        · -- q is the freshly added path
          have : q = p := by simpa using hq'
          subst this
          refine ⟨sha, ?_⟩
          rw [add_path_lookup, if_pos rfl]
      · exact hold e hmem q hq
    | none =>
      rw [hb] at he
      rcases List.mem_append.mp he with hmem | hmem
      · exact hold e hmem q hq
      · have : e = (ph, [p]) := by simpa using hmem
        subst this
        have : q = p := by simpa using hq
        subst this
        refine ⟨sha, ?_⟩
        rw [add_path_lookup, if_pos rfl]
  · simp only [HashIndex.add, if_neg hph] at he
    exact hold e he q hq

theorem are_similar_bounds {p k : String} {t : ℤ}
    (h : are_similar_images p k t = true) :
    0 ≤ hamming_distance p k ∧ hamming_distance p k ≤ t := by
  simp only [are_similar_images] at h
  by_cases hd : hamming_distance p k < 0
  · rw [if_pos hd] at h
    exact absurd h (by simp)
  · rw [if_neg hd] at h
    exact ⟨not_lt.mp hd, by simpa using h⟩

theorem find_similar_aux (q : String) (t : ℤ) :
    ∀ (l : List (String × List String)) (acc : List String) (p : String),
      p ∈ l.foldl
        (fun acc e => if are_similar_images q e.1 t then acc ++ e.2 else acc) acc →
      p ∈ acc ∨ ∃ e ∈ l, p ∈ e.2 ∧ are_similar_images q e.1 t = true := by
  intro l
  induction l with
  | nil => intro acc p h; exact .inl h
  | cons e rest ih =>
    intro acc p h
    simp only [List.foldl_cons] at h
    by_cases hs : are_similar_images q e.1 t = true
    · rw [if_pos hs] at h
      rcases ih _ p h with hacc | ⟨e', he', hp⟩
      · rcases List.mem_append.mp hacc with h1 | h2
        · exact .inl h1
        · exact .inr ⟨e, List.mem_cons_self e rest, h2, hs⟩
      · exact .inr ⟨e', List.mem_cons_of_mem _ he', hp⟩
    · rw [if_neg hs] at h
      rcases ih _ p h with hacc | ⟨e', he', hp⟩
      · exact .inl hacc
      · exact .inr ⟨e', List.mem_cons_of_mem _ he', hp⟩

theorem mem_find_similar {idx : HashIndex} {q : String} {t : ℤ} {p : String}
    (h : p ∈ idx.find_similar q t) :
    ∃ e ∈ idx.phash_to_paths, p ∈ e.2 ∧ are_similar_images q e.1 t = true := by
  unfold HashIndex.find_similar at h
  by_cases hq : q = ""
  · rw [if_pos hq] at h
    simp at h
  · rw [if_neg hq] at h
    rcases find_similar_aux q t idx.phash_to_paths [] p h with hacc | hgood
    · simp at hacc
    · exact hgood

theorem findBestStep_isSome (idx : HashIndex) (q : String)
    (acc : Option String × ℤ) (p : String) (hs : acc.1.isSome) :
    (findBestStep idx q acc p).1.isSome := by
  unfold findBestStep
  cases hl : alookup idx.path_to_hashes p with
  | none => exact hs
  | some hs' =>
    dsimp only
    split
    · simp
    · exact hs

theorem findBestStep_inv (idx : HashIndex) (q : String) (t : ℤ)
    (acc : Option String × ℤ) (p : String) (hinv : acc.1 = none → acc.2 = t + 1)
    (hnone : (findBestStep idx q acc p).1 = none) :
    (findBestStep idx q acc p).2 = t + 1 := by
  cases hl : alookup idx.path_to_hashes p with
  | none =>
    have heq : findBestStep idx q acc p = acc := by
      unfold findBestStep
      rw [hl]
    rw [heq] at hnone ⊢
    exact hinv hnone
  | some hs' =>
    have heq : findBestStep idx q acc p =
        if 0 ≤ hamming_distance q hs'.2 ∧ hamming_distance q hs'.2 < acc.2 then
          (some p, hamming_distance q hs'.2)
        else acc := by
      unfold findBestStep
      rw [hl]
    rw [heq] at hnone ⊢
    by_cases hcond : 0 ≤ hamming_distance q hs'.2 ∧ hamming_distance q hs'.2 < acc.2
    · rw [if_pos hcond] at hnone
      simp at hnone
    · rw [if_neg hcond] at hnone ⊢
      exact hinv hnone

theorem findBest_aux (idx : HashIndex) (q : String) (t : ℤ) :
    ∀ (l : List String) (acc : Option String × ℤ),
      (acc.1 = none → acc.2 = t + 1) →
      (acc.1.isSome ∨ ∃ p ∈ l, goodCand idx q t p) →
      (l.foldl (findBestStep idx q) acc).1.isSome := by
  intro l
  induction l with
  | nil =>
    intro acc _ hor
    rcases hor with h | ⟨p, hp, _⟩
    · exact h
    · simp at hp
  | cons p rest ih =>
    intro acc hinv hor
    simp only [List.foldl_cons]
    apply ih (findBestStep idx q acc p) (findBestStep_inv idx q t acc p hinv)
    rcases hor with hs | ⟨p', hp', hg⟩
    · exact .inl (findBestStep_isSome idx q acc p hs)
    · rcases List.mem_cons.mp hp' with heq | hmem
      · rw [heq] at hg
        by_cases hacc : acc.1.isSome
        · exact .inl (findBestStep_isSome idx q acc p hacc)
        · have h2 : acc.2 = t + 1 := by
            apply hinv
            cases h : acc.1
            · rfl
            · rw [h] at hacc; simp at hacc
          obtain ⟨hs, hlook, hd0, hdt⟩ := hg
          left
          have heq : findBestStep idx q acc p =
              if 0 ≤ hamming_distance q hs.2 ∧ hamming_distance q hs.2 < acc.2 then
                (some p, hamming_distance q hs.2)
              else acc := by
            unfold findBestStep
            rw [hlook]
          rw [heq, h2, if_pos ⟨hd0, by omega⟩]
          simp
      · exact .inr ⟨p', hmem, hg⟩

theorem findBest_some_of_similar (idx : HashIndex) (q : String) (t : ℤ)
    (hwf : idx.WF) (hne : idx.find_similar q t ≠ []) :
    (findBest idx q (idx.find_similar q t) t).1.isSome := by
  obtain ⟨p, hp⟩ := List.exists_mem_of_ne_nil _ hne
  obtain ⟨e, he, hpe, hsim⟩ := mem_find_similar hp
  obtain ⟨sha', hlook⟩ := hwf e he p hpe
  have hb := are_similar_bounds hsim
  exact findBest_aux idx q t _ (none, t + 1) (fun _ => rfl)
    (.inr ⟨p, hp, (sha', e.1), hlook, hb.1, hb.2⟩)

theorem specExcluded_true_iff (idx : HashIndex) (img : Img) (dn : Bool) (t : ℤ) :
    specExcluded idx img dn t = true ↔
      ((idx.has_exact_duplicate img.sha256).isSome = true ∨
        (dn = true ∧ img.phash ≠ "" ∧ idx.find_similar img.phash t ≠ [])) := by
  simp [specExcluded, Bool.or_eq_true, Bool.and_eq_true, List.isEmpty_iff,
    and_assoc]

theorem dedupStep_excluded (dn : Bool) (t : ℤ) (now : String) (acc : DedupAcc)
    (img : Img) (hwf : acc.index.WF)
    (hexc : specExcluded acc.index img dn t = true) :
    (dedupStep dn t now acc img).index = acc.index
      ∧ (dedupStep dn t now acc img).unique_images = acc.unique_images
      ∧ (dedupStep dn t now acc img).manifest = acc.manifest
      ∧ (dedupStep dn t now acc img).exact_duplicates.length
          + (dedupStep dn t now acc img).near_duplicates.length
          = acc.exact_duplicates.length + acc.near_duplicates.length + 1 := by
  cases hex : acc.index.has_exact_duplicate img.sha256 with
  | some orig =>
    refine ⟨?_, ?_, ?_, ?_⟩ <;> simp [dedupStep, hex] <;> omega
  | none =>
    have hcond := (specExcluded_true_iff acc.index img dn t).mp hexc
    rcases hcond with h | ⟨hdn, hph, hsim⟩
    · rw [hex] at h
      simp at h
    · have hbest := findBest_some_of_similar acc.index img.phash t hwf hsim
      obtain ⟨best, hbest⟩ := Option.isSome_iff_exists.mp hbest
      cases hfb : findBest acc.index img.phash (acc.index.find_similar img.phash t) t with
      | mk o d =>
        rw [hfb] at hbest
        have ho : o = some best := hbest
        subst ho
        refine ⟨?_, ?_, ?_, ?_⟩ <;> simp [dedupStep, hex, hdn, hph, hsim, hfb] <;> omega

theorem dedupStep_not_excluded (dn : Bool) (t : ℤ) (now : String) (acc : DedupAcc)
    (img : Img) (hexc : specExcluded acc.index img dn t = false) :
    (dedupStep dn t now acc img).index = acc.index.add img.path img.sha256 img.phash
      ∧ (dedupStep dn t now acc img).unique_images = acc.unique_images ++ [img]
      ∧ (dedupStep dn t now acc img).manifest = add_to_manifest acc.manifest img now
      ∧ (dedupStep dn t now acc img).exact_duplicates = acc.exact_duplicates
      ∧ (dedupStep dn t now acc img).near_duplicates = acc.near_duplicates := by
  have hnot : ¬(specExcluded acc.index img dn t = true) := by simp [hexc]
  rw [specExcluded_true_iff] at hnot
  push_neg at hnot
  obtain ⟨hex', hrest⟩ := hnot
  have hex : acc.index.has_exact_duplicate img.sha256 = none :=
    Option.not_isSome_iff_eq_none.mp (by simpa using hex')
  by_cases hdnph : dn = true ∧ img.phash ≠ ""
  · have hsim : acc.index.find_similar img.phash t = [] :=
      hrest hdnph.1 hdnph.2
    refine ⟨?_, ?_, ?_, ?_, ?_⟩ <;> simp [dedupStep, hex, hdnph.1, hdnph.2, hsim]
  · refine ⟨?_, ?_, ?_, ?_, ?_⟩ <;> simp [dedupStep, hex, hdnph]

theorem dedup_loop_refines (dn : Bool) (t : ℤ) (now : String) :
    ∀ (images : List Img) (acc : DedupAcc),
      acc.index.WF →
      (∀ i ∈ images, alookup acc.index.path_to_hashes i.path = none) →
      (images.map (·.path)).Nodup →
      (images.foldl (dedupStep dn t now) acc).unique_images =
          (images.foldl (specStep dn t now)
            (acc.unique_images, acc.index, acc.manifest)).1
        ∧ (images.foldl (dedupStep dn t now) acc).index =
            (images.foldl (specStep dn t now)
              (acc.unique_images, acc.index, acc.manifest)).2.1
        ∧ (images.foldl (dedupStep dn t now) acc).manifest =
            (images.foldl (specStep dn t now)
              (acc.unique_images, acc.index, acc.manifest)).2.2
        ∧ (images.foldl (dedupStep dn t now) acc).index.WF
        ∧ (images.foldl (dedupStep dn t now) acc).unique_images.length
            + (images.foldl (dedupStep dn t now) acc).exact_duplicates.length
            + (images.foldl (dedupStep dn t now) acc).near_duplicates.length
          = acc.unique_images.length + acc.exact_duplicates.length
            + acc.near_duplicates.length + images.length := by
  intro images
  induction images with
  | nil => intro acc hwf _ _; exact ⟨rfl, rfl, rfl, hwf, by simp⟩
  | cons img rest ih =>
    intro acc hwf hfresh hnodup
    obtain ⟨hnotin, htail⟩ :
        (∀ x ∈ rest, ¬x.path = img.path)
          ∧ (List.map (fun x => x.path) rest).Nodup := by
      simpa using hnodup
    simp only [List.foldl_cons]
    by_cases hexc : specExcluded acc.index img dn t = true
    · obtain ⟨h1, h2, h3, h4⟩ := dedupStep_excluded dn t now acc img hwf hexc
      have hspec : specStep dn t now (acc.unique_images, acc.index, acc.manifest) img
          = (acc.unique_images, acc.index, acc.manifest) := by
        simp [specStep, hexc]
      rw [hspec]
      have hwf' : (dedupStep dn t now acc img).index.WF := h1 ▸ hwf
      have hfresh' : ∀ i ∈ rest,
          alookup (dedupStep dn t now acc img).index.path_to_hashes i.path = none := by
        intro i hi
        rw [h1]
        exact hfresh i (List.mem_cons_of_mem _ hi)
      have hrec := ih (dedupStep dn t now acc img) hwf' hfresh' htail
      rw [h1, h2, h3] at hrec
      obtain ⟨c1, c2, c3, c4, c5⟩ := hrec
      refine ⟨c1, c2, c3, c4, ?_⟩
      simp only [List.length_cons, List.length_nil] at c5 ⊢
      omega
    · have hexcf : specExcluded acc.index img dn t = false := by
        cases h : specExcluded acc.index img dn t
        · rfl
        · exact absurd h hexc
      obtain ⟨h1, h2, h3, h4, h5⟩ := dedupStep_not_excluded dn t now acc img hexcf
      have hspec : specStep dn t now (acc.unique_images, acc.index, acc.manifest) img
          = (acc.unique_images ++ [img],
              acc.index.add img.path img.sha256 img.phash,
              add_to_manifest acc.manifest img now) := by
        simp [specStep, hexcf]
      rw [hspec]
      have hwf' : (dedupStep dn t now acc img).index.WF := by
        rw [h1]
        exact WF_add _ _ _ _ hwf (hfresh img (List.mem_cons_self img rest))
      have hfresh' : ∀ i ∈ rest,
          alookup (dedupStep dn t now acc img).index.path_to_hashes i.path = none := by
        intro i hi
        rw [h1, add_path_lookup, if_neg (fun hip => hnotin i hi hip)]
        exact hfresh i (List.mem_cons_of_mem _ hi)
      have hrec := ih (dedupStep dn t now acc img) hwf' hfresh' htail
      rw [h1, h2, h3] at hrec
      obtain ⟨c1, c2, c3, c4, c5⟩ := hrec
      refine ⟨c1, c2, c3, c4, ?_⟩
      have hl4 := congrArg List.length h4
      have hl5 := congrArg List.length h5
      simp only [List.length_append, List.length_cons, List.length_nil] at c5 hl4 hl5 ⊢
      omega

theorem specFold_manifest (dn : Bool) (t : ℤ) (now : String) :
    ∀ (images : List Img) (u : List Img) (idx : HashIndex) (m : Manifest),
      ∃ Δ : List Img,
        (images.foldl (specStep dn t now) (u, idx, m)).1 = u ++ Δ
          ∧ (∀ k, (alookup (images.foldl (specStep dn t now) (u, idx, m)).2.2 k).isSome ↔
              ((alookup m k).isSome ∨ ∃ i ∈ Δ, i.sha256 = k))
          ∧ (∀ i ∈ Δ, alookup (images.foldl (specStep dn t now) (u, idx, m)).2.2 i.sha256 =
              some ⟨i.sha256, i.phash, i.path, i.size, now⟩)
          ∧ (∀ k, (alookup idx.sha256_to_path k).isSome = true →
              (alookup (images.foldl (specStep dn t now) (u, idx, m)).2.1.sha256_to_path k).isSome = true)
          ∧ (∀ k v, (alookup idx.sha256_to_path k).isSome = true → alookup m k = some v →
              alookup (images.foldl (specStep dn t now) (u, idx, m)).2.2 k = some v)
          ∧ ((∀ k, (alookup m k).isSome = true → (alookup idx.sha256_to_path k).isSome = true) →
              (images.foldl (specStep dn t now) (u, idx, m)).2.2.length = m.length + Δ.length) := by
  intro images
  induction images with
  | nil =>
    intro u idx m
    exact ⟨[], by simp, by simp, by simp, fun k h => h, fun k v _ hm => hm,
      fun _ => by simp⟩
  | cons img rest ih =>
    intro u idx m
    simp only [List.foldl_cons]
    by_cases hexc : specExcluded idx img dn t = true
    · have hstep : specStep dn t now (u, idx, m) img = (u, idx, m) := by
        simp [specStep, hexc]
      rw [hstep]
      exact ih u idx m
    · have hexcf : specExcluded idx img dn t = false := by
        cases h : specExcluded idx img dn t
        · rfl
        · exact absurd h hexc
      have hstep : specStep dn t now (u, idx, m) img =
          (u ++ [img], idx.add img.path img.sha256 img.phash,
            add_to_manifest m img now) := by
        simp [specStep, hexcf]
      rw [hstep]
      have hexnone : alookup idx.sha256_to_path img.sha256 = none := by
        have hnot : ¬(specExcluded idx img dn t = true) := by simp [hexcf]
        rw [specExcluded_true_iff] at hnot
        push_neg at hnot
        cases h : alookup idx.sha256_to_path img.sha256 with
        | none => rfl
        | some p =>
          exact absurd (by simp [HashIndex.has_exact_duplicate, h]) hnot.1
      obtain ⟨Δ', hΔ1, hΔ2, hΔ3, hΔ4, hΔ5, hΔ6⟩ :=
        ih (u ++ [img]) (idx.add img.path img.sha256 img.phash)
          (add_to_manifest m img now)
      refine ⟨img :: Δ', ?_, ?_, ?_, ?_, ?_, ?_⟩
      · rw [hΔ1]
        simp
      · intro k
        rw [hΔ2 k]
        have hm' : (alookup (add_to_manifest m img now) k).isSome = true ↔
            (k = img.sha256 ∨ (alookup m k).isSome = true) := by
          unfold add_to_manifest
          rw [alookup_ainsert]
          by_cases hk : k = img.sha256 <;> simp [hk]
        rw [hm']
        constructor
        · rintro ((hk | hm) | ⟨i, hi, hik⟩)
          · exact .inr ⟨img, List.mem_cons_self img Δ', hk.symm⟩
          · exact .inl hm
          · exact .inr ⟨i, List.mem_cons_of_mem _ hi, hik⟩
        · rintro (hm | ⟨i, hi, hik⟩)
          · exact .inl (.inr hm)
          · rcases List.mem_cons.mp hi with heq | hi'
            · exact .inl (.inl (heq ▸ hik.symm))
            · exact .inr ⟨i, hi', hik⟩
      · intro i hi
        rcases List.mem_cons.mp hi with heq | hi'
        · subst heq
          apply hΔ5
          · rw [add_sha_lookup, if_pos rfl]
            rfl
          · unfold add_to_manifest
            exact alookup_ainsert_self _ _ _
        · exact hΔ3 i hi'
      · intro k hk
        apply hΔ4
        rw [add_sha_lookup]
        by_cases hks : k = img.sha256
        · rw [if_pos hks]
          rfl
        · rw [if_neg hks]
          exact hk
      · intro k v hk hm
        have hkne : k ≠ img.sha256 := by
          intro h
          rw [h, hexnone] at hk
          simp at hk
        apply hΔ5
        · rw [add_sha_lookup, if_neg hkne]
          exact hk
        · unfold add_to_manifest
          rw [alookup_ainsert_ne _ _ _ _ hkne]
          exact hm
      · intro hcov
        have hmnone : (alookup m img.sha256).isSome = false := by
          cases h : (alookup m img.sha256).isSome
          · rfl
          · exact absurd (hcov _ h) (by simp [hexnone])
        have hlen : (add_to_manifest m img now).length = m.length + 1 := by
          unfold add_to_manifest
          rw [ainsert_length, if_neg (by simp [hmnone])]
        have hcov' : ∀ k, (alookup (add_to_manifest m img now) k).isSome = true →
            (alookup (idx.add img.path img.sha256 img.phash).sha256_to_path k).isSome = true := by
          intro k hk
          rw [add_sha_lookup]
          by_cases hks : k = img.sha256
          · rw [if_pos hks]
            rfl
          · rw [if_neg hks]
            apply hcov
            unfold add_to_manifest at hk
            rw [alookup_ainsert_ne _ _ _ _ hks] at hk
            exact hk
        rw [hΔ6 hcov', hlen]
        simp only [List.length_cons]
        omega

theorem build_index_aux (files : List String) :
    ∀ (entries : List (String × MEntry)) (idx : HashIndex),
      idx.WF →
      (∀ pr ∈ entries, alookup idx.path_to_hashes pr.2.filename = none) →
      (entries.map (·.2.filename)).Nodup →
      (entries.foldl
          (fun idx p =>
            if p.2.filename ∈ files then idx.add p.2.filename p.1 p.2.phash else idx)
          idx).WF
        ∧ (∀ p, (alookup (entries.foldl
              (fun idx p =>
                if p.2.filename ∈ files then idx.add p.2.filename p.1 p.2.phash else idx)
              idx).path_to_hashes p).isSome = true →
            (alookup idx.path_to_hashes p).isSome = true ∨ p ∈ entries.map (·.2.filename))
        ∧ (∀ k, (alookup idx.sha256_to_path k).isSome = true →
            (alookup (entries.foldl
              (fun idx p =>
                if p.2.filename ∈ files then idx.add p.2.filename p.1 p.2.phash else idx)
              idx).sha256_to_path k).isSome = true)
        ∧ (∀ pr ∈ entries, pr.2.filename ∈ files →
            (alookup (entries.foldl
              (fun idx p =>
                if p.2.filename ∈ files then idx.add p.2.filename p.1 p.2.phash else idx)
              idx).sha256_to_path pr.1).isSome = true) := by
  intro entries
  induction entries with
  | nil =>
    intro idx hwf _ _
    exact ⟨hwf, fun p h => .inl h, fun k h => h, by simp⟩
  | cons pr rest ih =>
    intro idx hwf hfresh hnodup
    obtain ⟨hnotin, htail⟩ :
        (∀ x ∈ rest, ¬x.2.filename = pr.2.filename)
          ∧ (List.map (fun x => x.2.filename) rest).Nodup := by
      simpa using hnodup
    simp only [List.foldl_cons]
    by_cases hmem : pr.2.filename ∈ files
    · rw [if_pos hmem]
      have hwf' := WF_add idx pr.2.filename pr.1 pr.2.phash hwf
        (hfresh pr (List.mem_cons_self pr rest))
      have hfresh' : ∀ q ∈ rest,
          alookup (idx.add pr.2.filename pr.1 pr.2.phash).path_to_hashes
            q.2.filename = none := by
        intro q hq
        rw [add_path_lookup, if_neg (fun hqp => hnotin q hq hqp)]
        exact hfresh q (List.mem_cons_of_mem _ hq)
      obtain ⟨w1, w2, w3, w4⟩ := ih (idx.add pr.2.filename pr.1 pr.2.phash) hwf' hfresh' htail
      refine ⟨w1, ?_, ?_, ?_⟩
      · intro p hp
        rcases w2 p hp with h' | h'
        · rw [add_path_lookup] at h'
          by_cases hpp : p = pr.2.filename
          · right
            rw [List.map_cons, hpp]
            exact List.mem_cons_self _ _
          · rw [if_neg hpp] at h'
            exact .inl h'
        · right
          rw [List.map_cons]
          exact List.mem_cons_of_mem _ h'
      · intro k hk
        apply w3
        rw [add_sha_lookup]
        by_cases hks : k = pr.1
        · rw [if_pos hks]
          rfl
        · rw [if_neg hks]
          exact hk
      · intro q hq hqf
        rcases List.mem_cons.mp hq with heq | hq'
        · subst heq
          apply w3
          rw [add_sha_lookup, if_pos rfl]
          rfl
        · exact w4 q hq' hqf
    · rw [if_neg hmem]
      obtain ⟨w1, w2, w3, w4⟩ := ih idx hwf
        (fun q hq => hfresh q (List.mem_cons_of_mem _ hq)) htail
      refine ⟨w1, ?_, w3, ?_⟩
      · intro p hp
        rcases w2 p hp with h' | h'
        · exact .inl h'
        · right
          rw [List.map_cons]
          exact List.mem_cons_of_mem _ h'
      · intro q hq hqf
        rcases List.mem_cons.mp hq with heq | hq'
        · subst heq
          exact absurd hqf hmem
        · exact w4 q hq' hqf

/-- C6 counterexample: the exclusion policy "excluded iff the content hash
matches an indexed entry or the perceptual hash is within threshold of an
indexed entry" fails as soon as two manifest entries share a filename:
`manifestDupName`'s second `add` overwrites `path_to_hashes["a"]`, so the
`best_match` scan measures the query against the *overwriting* entry's
hash, finds it out of range, and keeps the image even though the bucket
of the first entry is within threshold (second conjunct).  Moreover, a
non-excluded image whose hash key is already in the (stale) manifest
overwrites that entry, so the manifest does not gain a new entry
(`manifestStale` keeps length 1). -/
theorem dedup_exclusion_policy_fails :
    ((deduplicate_images [imgDupName] manifestDupName ["a"] true 2 "t1").unique_images
          = [imgDupName]
        ∧ specExcluded (build_index_from_manifest manifestDupName ["a"])
            imgDupName true 2 = true)
      ∧ ((deduplicate_images [imgStale] manifestStale [] true 10 "t1").unique_images
            = [imgStale]
          ∧ (deduplicate_images [imgStale] manifestStale [] true 10 "t1").manifest.length = 1
          ∧ manifestStale.length = 1) := by
  refine ⟨⟨?_, ?_⟩, ?_, ?_, rfl⟩ <;> decide

/-- C6 (amended): provided all manifest filenames and candidate image
paths are pairwise distinct, `deduplicate_images` implements exactly the
spec's filtering pass (`specStep`: exclude iff exact content-hash match
against the index, or — with near-duplicate detection on and a non-empty
perceptual hash — some indexed entry within the Hamming threshold;
everything kept is indexed): the unique list and updated manifest
coincide with the spec fold, every analyzed image lands in exactly one of
unique/exact/near, the final manifest's keys are the initial keys plus
the kept images' hashes (each mapped to that image's entry), and — when
every manifest entry's file is still present in the folder — the
manifest grows by exactly one entry per kept image. -/
theorem deduplicate_images_spec (images : List Img) (manifest : Manifest)
    (files : List String) (dn : Bool) (t : ℤ) (now : String)
    (hnodup : (manifest.map (·.2.filename) ++ images.map (·.path)).Nodup) :
    (deduplicate_images images manifest files dn t now).unique_images =
        (images.foldl (specStep dn t now)
          ([], build_index_from_manifest manifest files, manifest)).1
      ∧ (deduplicate_images images manifest files dn t now).manifest =
          (images.foldl (specStep dn t now)
            ([], build_index_from_manifest manifest files, manifest)).2.2
      ∧ (deduplicate_images images manifest files dn t now).unique_images.length
          + (deduplicate_images images manifest files dn t now).exact_duplicates.length
          + (deduplicate_images images manifest files dn t now).near_duplicates.length
        = images.length
      ∧ (∀ k, (alookup (deduplicate_images images manifest files dn t now).manifest k).isSome = true ↔
          ((alookup manifest k).isSome = true ∨
            ∃ i ∈ (deduplicate_images images manifest files dn t now).unique_images,
              i.sha256 = k))
      ∧ (∀ i ∈ (deduplicate_images images manifest files dn t now).unique_images,
          alookup (deduplicate_images images manifest files dn t now).manifest i.sha256 =
            some ⟨i.sha256, i.phash, i.path, i.size, now⟩)
      ∧ ((∀ e ∈ manifest, e.2.filename ∈ files) →
          (deduplicate_images images manifest files dn t now).manifest.length =
            manifest.length +
              (deduplicate_images images manifest files dn t now).unique_images.length) := by
  obtain ⟨hnm, hni, hdisj⟩ := List.nodup_append.mp hnodup
  have hempty_wf : HashIndex.empty.WF := by
    intro e he
    simp [HashIndex.empty] at he
  obtain ⟨hwf0, hkeys0, hmono0, hper0⟩ :=
    build_index_aux files manifest HashIndex.empty hempty_wf
      (fun pr _ => rfl) hnm
  have hfresh : ∀ i ∈ images,
      alookup (build_index_from_manifest manifest files).path_to_hashes i.path = none := by
    intro i hi
    cases h : alookup (build_index_from_manifest manifest files).path_to_hashes i.path with
    | none => rfl
    | some v =>
      have hs : (alookup (build_index_from_manifest manifest files).path_to_hashes i.path).isSome = true := by
        rw [h]
        rfl
      rcases hkeys0 i.path hs with h' | h'
      · simp [HashIndex.empty, alookup] at h'
      · exact absurd (List.mem_map_of_mem _ hi) (fun hm => hdisj h' hm)
  obtain ⟨c1, c2, c3, c4, c5⟩ := dedup_loop_refines dn t now images
    ⟨build_index_from_manifest manifest files, manifest, [], [], []⟩ hwf0 hfresh hni
  obtain ⟨Δ, m1, m2, m3, m4, m5, m6⟩ :=
    specFold_manifest dn t now images [] (build_index_from_manifest manifest files) manifest
  have m1' : (images.foldl (specStep dn t now)
      ([], build_index_from_manifest manifest files, manifest)).1 = Δ := by
    rw [m1]
    simp
  simp only [deduplicate_images]
  have hU : (images.foldl (dedupStep dn t now)
      ⟨build_index_from_manifest manifest files, manifest, [], [], []⟩).unique_images = Δ :=
    c1.trans m1'
  refine ⟨c1, c3, ?_, ?_, ?_, ?_⟩
  · rw [c5]
    simp
  · intro k
    rw [c3, hU]
    exact m2 k
  · intro i hi
    rw [c3]
    exact m3 i (hU ▸ hi)
  · intro hcov
    have hcov' : ∀ k, (alookup manifest k).isSome = true →
        (alookup (build_index_from_manifest manifest files).sha256_to_path k).isSome = true := by
      intro k hk
      obtain ⟨pr, hfind⟩ : ∃ pr, List.find? (fun p => p.1 = k) manifest = some pr := by
        simp only [alookup] at hk
        cases hf : List.find? (fun p => p.1 = k) manifest with
        | none => rw [hf] at hk; simp at hk
        | some pr => exact ⟨pr, rfl⟩
      have hprk : pr.1 = k := by simpa using List.find?_some hfind
      have hprm : pr ∈ manifest := List.mem_of_find?_eq_some hfind
      exact hprk ▸ hper0 pr hprm (hcov pr hprm)
    rw [c3, hU]
    exact m6 hcov'

theorem deduplicate_images_spec_witness :
    ((([] : Manifest).map (·.2.filename) ++ imgsScenario.map (·.path)).Nodup)
      ∧ (deduplicate_images imgsScenario [] [] true 10 "t").manifest.length =
          ([] : Manifest).length +
            (deduplicate_images imgsScenario [] [] true 10 "t").unique_images.length
      ∧ (deduplicate_images imgsScenario [] [] true 10 "t").unique_images.length = 4
      ∧ (deduplicate_images imgsScenario [] [] true 10 "t").manifest.length = 4 :=
  ⟨by decide,
    (deduplicate_images_spec imgsScenario [] [] true 10 "t" (by decide)).2.2.2.2.2
      (by simp),
    by decide, by decide⟩

end Riposte
